import Mathlib

/-
Verification of the todozi task persistence and lifecycle engine
(`src/tdz_py/todozi/storage.py` together with the data model in
`src/tdz_py/venv/lib/python3.12/site-packages/todozi/models.py`).

The Python code is embedded shallowly:

* Python `dict`s (insertion-ordered maps keyed by task id, project hash
  or collection name) become association lists `List (String × α)` with
  dict semantics: assignment replaces the value at the existing position
  or appends, `pop` removes the entry, iteration follows list order.
* `datetime` values become a `DateTime` record of calendar fields; the
  `isoformat` / `fromisoformat` pair used by the entity codec is embedded
  character by character.
* `datetime.now(timezone.utc)` is an external effect; every operation
  that stamps a timestamp takes the current instant as an explicit
  `now` argument.
* Raising `TodoziError` becomes `Except String`, the message string
  mirroring the Python message.
* The file system under the storage root is embedded at the record
  level: one entry per file path, keyed the way the code derives file
  names (project hash, collection name).  A directory listing never
  contains two files with the same name, so the in-memory list of
  containers returned by `list_project_task_containers` is a keyed list
  with pairwise distinct hashes; saving a container rewrites the entry
  with its hash in place.
-/

set_option autoImplicit false

deriving instance DecidableEq for Except

namespace Todozi

/-! ### Association lists with Python dict semantics -/

/-- First value stored at key `k` (Python `d[k]` / `d.get(k)`). -/
def alookup {α : Type} (k : String) : List (String × α) → Option α
  | [] => none
  | (k', v) :: rest => if k' = k then some v else alookup k rest

/-- Key membership (Python `k in d`). -/
def amem {α : Type} (k : String) (l : List (String × α)) : Bool :=
  (alookup k l).isSome

/-- Assignment `d[k] = v`: replace the value at the existing position,
or append a new entry (Python dict update semantics). -/
def ainsert {α : Type} (k : String) (v : α) : List (String × α) → List (String × α)
  | [] => [(k, v)]
  | (k', v') :: rest => if k' = k then (k, v) :: rest else (k', v') :: ainsert k v rest

/-- Removal `d.pop(k)` (drops the first entry with key `k`). -/
def aremove {α : Type} (k : String) : List (String × α) → List (String × α)
  | [] => []
  | (k', v') :: rest => if k' = k then rest else (k', v') :: aremove k rest

/-- The keys of the map, in order. -/
def akeys {α : Type} (l : List (String × α)) : List String :=
  l.map Prod.fst

/-- The values of the map, in order (Python `d.values()`). -/
def avalues {α : Type} (l : List (String × α)) : List α :=
  l.map Prod.snd

/-! ### Timestamps and the textual codec

`datetime.now(timezone.utc)` values are UTC instants; we embed them as a
record of the calendar fields Python renders.  `DateTime.isoformat`
mirrors `datetime.isoformat()` for a UTC-aware value: the fractional
part is printed exactly when `microsecond` is nonzero, and the offset is
rendered `+00:00`.  `fromiso` mirrors the `datetime.fromisoformat`
calls in `storage.py` (restricted to the UTC forms the codec writes),
and `replaceZ` mirrors the `.replace('Z', '+00:00')` preprocessing. -/

structure DateTime where
  year : Nat
  month : Nat
  day : Nat
  hour : Nat
  minute : Nat
  second : Nat
  microsecond : Nat
  deriving DecidableEq, Repr

/-- Well-formedness of the calendar fields: each fits the fixed-width
decimal field Python prints it into (true of every real instant). -/
def DateTime.WF (t : DateTime) : Prop :=
  t.year < 10000 ∧ t.month < 100 ∧ t.day < 100 ∧ t.hour < 100 ∧
    t.minute < 100 ∧ t.second < 100 ∧ t.microsecond < 1000000

instance (t : DateTime) : Decidable t.WF := by
  unfold DateTime.WF
  infer_instance

/-- The decimal digit character for `d < 10`. -/
def digitChar (d : Nat) : Char := Char.ofNat (48 + d)

/-- Fixed-width decimal rendering (`%0wd`), least-significant digit last. -/
def natToChars : Nat → Nat → List Char
  | 0, _ => []
  | w + 1, n => natToChars w (n / 10) ++ [digitChar (n % 10)]

/-- The numeric value of a decimal digit character. -/
def charDigit (c : Char) : Option Nat :=
  if 48 ≤ c.toNat ∧ c.toNat ≤ 57 then some (c.toNat - 48) else none

/-- Decimal value of a digit string, accumulator style. -/
def digitsValAux (acc : Nat) : List Char → Option Nat
  | [] => some acc
  | c :: cs =>
    match charDigit c with
    | some d => digitsValAux (acc * 10 + d) cs
    | none => none

/-- Read exactly `w` leading digit characters as a number, returning the
value and the rest of the input. -/
def readFixed (w : Nat) (l : List Char) : Option (Nat × List Char) :=
  if (l.take w).length = w then
    match digitsValAux 0 (l.take w) with
    | some n => some (n, l.drop w)
    | none => none
  else none

/-- Expect an exact character at the head of the input. -/
def expectChar (c : Char) : List Char → Option (List Char)
  | [] => none
  | x :: xs => if x = c then some xs else none

/-- `datetime.isoformat()` of a UTC-aware instant, as a character list:
`YYYY-MM-DDTHH:MM:SS[.ffffff]+00:00`, the fraction present exactly when
`microsecond` is nonzero. -/
def DateTime.isoChars (t : DateTime) : List Char :=
  natToChars 4 t.year ++ [⟨45, by decide⟩] ++ natToChars 2 t.month ++ [⟨45, by decide⟩] ++
    natToChars 2 t.day ++ [⟨84, by decide⟩] ++ natToChars 2 t.hour ++ [⟨58, by decide⟩] ++
    natToChars 2 t.minute ++ [⟨58, by decide⟩] ++ natToChars 2 t.second ++
    (if t.microsecond = 0 then [] else ⟨46, by decide⟩ :: natToChars 6 t.microsecond) ++
    [⟨43, by decide⟩, ⟨48, by decide⟩, ⟨48, by decide⟩, ⟨58, by decide⟩,
      ⟨48, by decide⟩, ⟨48, by decide⟩]

/-- `datetime.isoformat()`, as a string. -/
def DateTime.isoformat (t : DateTime) : String := String.mk t.isoChars

/-- The tail of a parse: optional `.ffffff` fraction followed by the
`+00:00` offset. -/
def parseFracOffset (l : List Char) : Option Nat :=
  match l with
  | ⟨46, _⟩ :: l₂ =>
    match readFixed 6 l₂ with
    | some (us, l₃) => if l₃ = [⟨43, by decide⟩, ⟨48, by decide⟩, ⟨48, by decide⟩,
        ⟨58, by decide⟩, ⟨48, by decide⟩, ⟨48, by decide⟩] then some us else none
    | none => none
  | _ => if l = [⟨43, by decide⟩, ⟨48, by decide⟩, ⟨48, by decide⟩,
      ⟨58, by decide⟩, ⟨48, by decide⟩, ⟨48, by decide⟩] then some 0 else none

/-- `datetime.fromisoformat`, restricted to the UTC textual forms the
codec produces. -/
def fromisoChars (l : List Char) : Option DateTime := do
  let (y, l) ← readFixed 4 l
  let l ← expectChar ⟨45, by decide⟩ l
  let (mo, l) ← readFixed 2 l
  let l ← expectChar ⟨45, by decide⟩ l
  let (d, l) ← readFixed 2 l
  let l ← expectChar ⟨84, by decide⟩ l
  let (h, l) ← readFixed 2 l
  let l ← expectChar ⟨58, by decide⟩ l
  let (mi, l) ← readFixed 2 l
  let l ← expectChar ⟨58, by decide⟩ l
  let (s, l) ← readFixed 2 l
  let us ← parseFracOffset l
  pure ⟨y, mo, d, h, mi, s, us⟩

/-- `.replace('Z', '+00:00')` on the character list. -/
def replaceZ : List Char → List Char
  | [] => []
  | c :: rest =>
    if c = ⟨90, by decide⟩ then
      ⟨43, by decide⟩ :: ⟨48, by decide⟩ :: ⟨48, by decide⟩ :: ⟨58, by decide⟩ ::
        ⟨48, by decide⟩ :: ⟨48, by decide⟩ :: replaceZ rest
    else c :: replaceZ rest

/-- `datetime.fromisoformat(s.replace('Z', '+00:00'))` as used by every
load path in `storage.py`. -/
def fromiso (s : String) : Option DateTime := fromisoChars (replaceZ s.data)

/-! ### The data model (`models.py`)

`Status` mirrors the Python `Status(Enum)`.  In Python, `PENDING = "todo"`
and `COMPLETED = "done"` make `PENDING`/`COMPLETED` *aliases* of
`TODO`/`DONE` (members with duplicate values), so the enum has seven
distinct members; the aliases are definitions equal to their canonical
member.  Fields typed with enums in `models.py` are embedded by their
canonical string forms, matching `storage.py`, which compares the
`status` field against raw strings throughout. -/

inductive Status where
  | todo
  | in_progress
  | blocked
  | review
  | done
  | cancelled
  | deferred
  deriving DecidableEq, Repr, Fintype

/-- Python `Status.PENDING`: an alias of `Status.TODO` (same enum value). -/
def Status.PENDING : Status := Status.todo

/-- Python `Status.COMPLETED`: an alias of `Status.DONE` (same enum value). -/
def Status.COMPLETED : Status := Status.done

/-- Python `str.lower()` (character-wise ASCII lowering, which is all
the status / priority tokens exercise). -/
def str_lower (s : String) : String :=
  String.mk (s.data.map Char.toLower)

/-- `Status.from_str` (`models.py` lines 50-68): lowercases the input and
maps the accepted spellings; anything else raises `TodoziError`. -/
def Status.from_str (s : String) : Except String Status :=
  let s := str_lower s
  if s = "todo" ∨ s = "pending" then .ok .todo
  else if s = "in_progress" ∨ s = "in-progress" then .ok .in_progress
  else if s = "blocked" then .ok .blocked
  else if s = "review" then .ok .review
  else if s = "done" ∨ s = "completed" then .ok .done
  else if s = "cancelled" ∨ s = "canceled" then .ok .cancelled
  else if s = "deferred" then .ok .deferred
  else .error ("Invalid status: " ++ s)

/-- `Status.__str__` (`models.py` lines 70-84): the canonical string form. -/
def Status.toStr : Status → String
  | .todo => "todo"
  | .in_progress => "in_progress"
  | .blocked => "blocked"
  | .review => "review"
  | .done => "done"
  | .cancelled => "cancelled"
  | .deferred => "deferred"

/-- The status tokens of the data model plus the alternate spellings
`from_str` accepts: exactly the strings (in canonical lowercase form)
that parse successfully. -/
def acceptedStatusStrings : List String :=
  ["todo", "pending", "in_progress", "in-progress", "blocked", "review",
    "done", "completed", "cancelled", "canceled", "deferred"]

/-- `Assignee` (`models.py` lines 86-116): a type tag plus an optional
agent name. -/
structure Assignee where
  assignee_type : String
  name : Option String
  deriving DecidableEq, Repr

/-- The `Task` dataclass (`models.py` lines 432-448).  `status` and
`priority` are embedded as their canonical strings; `progress` is a
Python int (`Option Int`, absent at creation); the embedding vector's
floats are embedded as rationals (`storage.py` only ever assigns the
constant vector `[0.1] * 384`). -/
structure Task where
  id : String
  user_id : String
  action : String
  time : String
  priority : String
  parent_project : String
  status : String
  assignee : Option Assignee
  tags : List String
  dependencies : List String
  context_notes : Option String
  progress : Option Int
  embedding_vector : Option (List Rat)
  created_at : DateTime
  updated_at : DateTime
  deriving DecidableEq, Repr

/-- `TaskUpdate` (`models.py` lines 536-548): every field optional. -/
structure TaskUpdate where
  action : Option String := none
  time : Option String := none
  priority : Option String := none
  parent_project : Option String := none
  status : Option String := none
  assignee : Option Assignee := none
  tags : Option (List String) := none
  dependencies : Option (List String) := none
  context_notes : Option String := none
  progress : Option Int := none
  embedding_vector : Option (List Rat) := none
  deriving DecidableEq, Repr

/-- `Task.update` (`models.py` lines 498-523): apply every supplied
field in order; a supplied `progress` above 100 raises
`TodoziError(f"Invalid progress: ...")` before being assigned; on
success `updated_at` is stamped. -/
def Task.update (t : Task) (updates : TaskUpdate) (now : DateTime) : Except String Task :=
  let t := match updates.action with | some a => { t with action := a } | none => t
  let t := match updates.time with | some x => { t with time := x } | none => t
  let t := match updates.priority with | some x => { t with priority := x } | none => t
  let t := match updates.parent_project with
    | some x => { t with parent_project := x } | none => t
  let t := match updates.status with | some x => { t with status := x } | none => t
  let t := match updates.assignee with | some x => { t with assignee := some x } | none => t
  let t := match updates.tags with | some x => { t with tags := x } | none => t
  let t := match updates.dependencies with | some x => { t with dependencies := x } | none => t
  let t := match updates.context_notes with
    | some x => { t with context_notes := some x } | none => t
  match updates.progress with
  | some p =>
    if p > 100 then .error ("Invalid progress: " ++ toString p)
    else
      let t := { t with progress := some p }
      let t := match updates.embedding_vector with
        | some x => { t with embedding_vector := some x } | none => t
      .ok { t with updated_at := now }
  | none =>
    let t := match updates.embedding_vector with
      | some x => { t with embedding_vector := some x } | none => t
    .ok { t with updated_at := now }

/-- `TaskFilters` (`models.py` lines 594-601). -/
structure TaskFilters where
  project : Option String := none
  status : Option String := none
  priority : Option String := none
  assignee : Option Assignee := none
  tags : Option (List String) := none
  search : Option String := none
  deriving DecidableEq, Repr

/-- Substring containment on character lists (Python `needle in hay`). -/
def containsSub (hay needle : List Char) : Bool :=
  match hay with
  | [] => needle.isEmpty
  | _ :: rest => needle.isPrefixOf hay || containsSub rest needle

/-- `TaskCollection` (`models.py` lines 710-714): one legacy named
collection, a versioned map of task id to task. -/
structure TaskCollection where
  version : String
  created_at : DateTime
  updated_at : DateTime
  tasks : List (String × Task)
  deriving DecidableEq, Repr

/-- `TaskCollection.new`. -/
def TaskCollection.new (now : DateTime) : TaskCollection :=
  { version := "1.2.0", created_at := now, updated_at := now, tasks := [] }

/-- `ProjectTaskContainer` (`models.py` lines 1561-1570): one container
per project with the four lifecycle buckets. -/
structure ProjectTaskContainer where
  project_name : String
  project_hash : String
  created_at : DateTime
  updated_at : DateTime
  active_tasks : List (String × Task)
  completed_tasks : List (String × Task)
  archived_tasks : List (String × Task)
  deleted_tasks : List (String × Task)
  deriving DecidableEq, Repr

/-- Modelled from the spec: `hash_project_name` (`storage.py` line 450)
calls `hashlib.md5(project_name.encode()).hexdigest()`, an external hash
primitive whose implementation is not part of this repository.  The spec
(sections 3 and 4.3) requires only a deterministic, stable content hash
of the project name, used as the container's file name; it is modelled
as an injective deterministic encoding of the name. -/
def hash_project_name (project_name : String) : String :=
  "md5:" ++ project_name

/-- `ProjectTaskContainer.new` (`storage.py` lines 83-86 /
`models.py` lines 1572-1585): empty buckets, hash computed from the
name. -/
def ProjectTaskContainer.new (project_name : String) (now : DateTime) : ProjectTaskContainer :=
  { project_name := project_name
    project_hash := hash_project_name project_name
    created_at := now
    updated_at := now
    active_tasks := []
    completed_tasks := []
    archived_tasks := []
    deleted_tasks := [] }

/-- All tasks of a container, in bucket order active, completed,
archived, deleted (`get_all_tasks`, `models.py` lines 1635-1641). -/
def ProjectTaskContainer.allTasks (c : ProjectTaskContainer) : List Task :=
  avalues c.active_tasks ++ avalues c.completed_tasks ++
    avalues c.archived_tasks ++ avalues c.deleted_tasks

/-- All task ids of a container, in bucket order. -/
def ProjectTaskContainer.allIds (c : ProjectTaskContainer) : List String :=
  akeys c.active_tasks ++ akeys c.completed_tasks ++
    akeys c.archived_tasks ++ akeys c.deleted_tasks

/-- Filter predicate of `get_filtered_tasks` (`models.py` lines
1643-1662): a task passes when it satisfies every supplied filter. -/
def taskMatchesFilters (filters : TaskFilters) (task : Task) : Bool :=
  (match filters.project with
    | none => true
    | some p => task.parent_project = p) &&
  (match filters.status with
    | none => true
    | some st => task.status = st) &&
  (match filters.priority with
    | none => true
    | some pr => task.priority = pr) &&
  (match filters.assignee with
    | none => true
    | some a => task.assignee = some a) &&
  (match filters.tags with
    | none => true
    | some tags => tags.any (fun tag => task.tags.contains tag)) &&
  (match filters.search with
    | none => true
    | some q =>
      containsSub (str_lower task.action).data (str_lower q).data ||
        (match task.context_notes with
          | none => false
          | some notes => containsSub (str_lower notes).data (str_lower q).data))

/-- `get_filtered_tasks` (`models.py` lines 1643-1662). -/
def ProjectTaskContainer.get_filtered_tasks (c : ProjectTaskContainer)
    (filters : TaskFilters) : List Task :=
  c.allTasks.filter (taskMatchesFilters filters)

/-- `MigrationReport` (`models.py` lines 1546-1552; the Python port of
`migrate_to_project_based` leaves `project_stats` empty). -/
structure MigrationReport where
  tasks_found : Nat
  tasks_migrated : Nat
  projects_migrated : Nat
  errors : List String
  deriving DecidableEq, Repr

/-- The storage engine's state: the three legacy collections
(`tasks/active.json`, `tasks/completed.json`, `tasks/archived.json`),
the per-project containers (`project_tasks/<hash>.json`, one file per
hash, listed in directory order), and the configured default project. -/
structure StorageState where
  legacy_active : TaskCollection
  legacy_completed : TaskCollection
  legacy_archived : TaskCollection
  containers : List ProjectTaskContainer
  default_project : String
  deriving DecidableEq, Repr

/-- The empty store: the three legacy collections empty, no container
files, default project `"general"` (`Config` default, `storage.py`
line 16). -/
def StorageState.empty (now : DateTime) : StorageState :=
  { legacy_active := TaskCollection.new now
    legacy_completed := TaskCollection.new now
    legacy_archived := TaskCollection.new now
    containers := []
    default_project := "general" }

/-! ### The storage operations (`storage.py`, class `Storage`)

The container list models the directory listing that
`list_project_task_containers` reads: one entry per
`project_tasks/<hash>.json` file, so the hashes of distinct entries are
distinct.  `save_project_task_container` writes the file named by the
container's hash: in the list model it rewrites the entry with that
hash in place, or appends a fresh file. -/

/-- Status strings routed to the `active` bucket (`storage.py`
line 734). -/
def active_statuses : List String :=
  ["todo", "pending", "in_progress", "blocked", "review"]

/-- Status strings routed to the `completed` bucket (`storage.py`
line 736). -/
def completed_statuses : List String := ["done", "completed"]

/-- Status strings routed to the `archived` bucket (`storage.py`
line 738). -/
def archived_statuses : List String := ["cancelled", "deferred"]

/-- All valid status strings of the data model (section 3 of the spec). -/
def valid_statuses : List String :=
  active_statuses ++ completed_statuses ++ archived_statuses

/-- `load_project_task_container` (`storage.py` lines 466-483) on the
in-memory directory: the file named by the hash of the project name,
or a fresh `ProjectTaskContainer.new` when the file does not exist. -/
def load_project_task_container (containers : List ProjectTaskContainer)
    (project_name : String) (now : DateTime) : ProjectTaskContainer :=
  match containers.find? (fun c => c.project_hash = hash_project_name project_name) with
  | some c => c
  | none => ProjectTaskContainer.new project_name now

/-- `save_project_task_container` (`storage.py` lines 453-464): rewrite
the file named by the container's hash (replace the entry with that
hash, or create the file). -/
def save_project_task_container : List ProjectTaskContainer → ProjectTaskContainer →
    List ProjectTaskContainer
  | [], c => [c]
  | c' :: rest, c =>
    if c'.project_hash = c.project_hash then c :: rest
    else c' :: save_project_task_container rest c

/-- The constant embedding `storage.py` assigns
(`task.embedding_vector = [0.1] * 384`). -/
def Task.withEmbedding (t : Task) : Task :=
  { t with embedding_vector := some (List.replicate 384 (1 / 10 : Rat)) }

/-- The status-to-bucket insertion block shared verbatim by
`add_task_to_project` (`storage.py` lines 734-739) and
`migrate_to_project_based` (lines 926-931): insert the task into the
bucket its status string selects; an unrecognized status inserts
nowhere. -/
def bucketInsert (task : Task) (container : ProjectTaskContainer) : ProjectTaskContainer :=
  if task.status ∈ active_statuses then
    { container with active_tasks := ainsert task.id task container.active_tasks }
  else if task.status ∈ completed_statuses then
    { container with completed_tasks := ainsert task.id task container.completed_tasks }
  else if task.status ∈ archived_statuses then
    { container with archived_tasks := ainsert task.id task container.archived_tasks }
  else container

/-- `Storage.add_task_to_project` (`storage.py` lines 726-741): default
the parent project when empty, set the embedding, load or create the
project's container, insert the task into the bucket selected by its
status string, write the container back. -/
def add_task_to_project (s : StorageState) (task : Task) (now : DateTime) : StorageState :=
  let task :=
    if task.parent_project = "" then { task with parent_project := s.default_project }
    else task
  let task := task.withEmbedding
  let container := load_project_task_container s.containers task.parent_project now
  let container := bucketInsert task container
  { s with containers := save_project_task_container s.containers container }

/-- One loop iteration of `complete_task_in_project` (`storage.py`
lines 820-839) on a single container: pop from `active` or `archived`,
set status `done`, stamp `updated_at`, insert into `completed`. -/
def completeInContainer (id : String) (now : DateTime) (c : ProjectTaskContainer) :
    Option ProjectTaskContainer :=
  match alookup id c.active_tasks with
  | some task =>
    some { c with
      active_tasks := aremove id c.active_tasks
      completed_tasks :=
        ainsert id { task with status := "done", updated_at := now } c.completed_tasks }
  | none =>
    match alookup id c.archived_tasks with
    | some task =>
      some { c with
        archived_tasks := aremove id c.archived_tasks
        completed_tasks :=
          ainsert id { task with status := "done", updated_at := now } c.completed_tasks }
    | none => none

/-- One loop iteration of `delete_task_from_project` (`storage.py`
lines 796-818): pop from `active`, `completed` or `archived`, force
status `cancelled`, stamp `updated_at`, insert into `deleted`. -/
def deleteInContainer (id : String) (now : DateTime) (c : ProjectTaskContainer) :
    Option ProjectTaskContainer :=
  match alookup id c.active_tasks with
  | some task =>
    some { c with
      active_tasks := aremove id c.active_tasks
      deleted_tasks :=
        ainsert id { task with status := "cancelled", updated_at := now } c.deleted_tasks }
  | none =>
    match alookup id c.completed_tasks with
    | some task =>
      some { c with
        completed_tasks := aremove id c.completed_tasks
        deleted_tasks :=
          ainsert id { task with status := "cancelled", updated_at := now } c.deleted_tasks }
    | none =>
      match alookup id c.archived_tasks with
      | some task =>
        some { c with
          archived_tasks := aremove id c.archived_tasks
          deleted_tasks :=
            ainsert id { task with status := "cancelled", updated_at := now } c.deleted_tasks }
      | none => none

/-- One loop iteration of `update_task_in_project` (`storage.py`
lines 770-794): the port locates the task in one of the four buckets,
regenerates its embedding vector, and writes the container back; the
`updates` argument is never applied (the "Apply updates (simplified)"
comment in the source). -/
def updateInContainer (id : String) (c : ProjectTaskContainer) :
    Option ProjectTaskContainer :=
  match alookup id c.active_tasks with
  | some task =>
    some { c with active_tasks := ainsert id task.withEmbedding c.active_tasks }
  | none =>
    match alookup id c.completed_tasks with
    | some task =>
      some { c with completed_tasks := ainsert id task.withEmbedding c.completed_tasks }
    | none =>
      match alookup id c.archived_tasks with
      | some task =>
        some { c with archived_tasks := ainsert id task.withEmbedding c.archived_tasks }
      | none =>
        match alookup id c.deleted_tasks with
        | some task =>
          some { c with deleted_tasks := ainsert id task.withEmbedding c.deleted_tasks }
        | none => none

/-- The `for container in containers` loop shared by the single-task
operations: apply `f` to the first container it succeeds on and write
that container back in place (its file is rewritten under its own
hash), leaving the rest untouched. -/
def modifyFirstContainer (f : ProjectTaskContainer → Option ProjectTaskContainer) :
    List ProjectTaskContainer → Option (List ProjectTaskContainer)
  | [] => none
  | c :: rest =>
    match f c with
    | some c' => some (c' :: rest)
    | none => (modifyFirstContainer f rest).map (c :: ·)

/-- `Storage.complete_task_in_project` (`storage.py` lines 820-839). -/
def complete_task_in_project (s : StorageState) (id : String) (now : DateTime) :
    Except String StorageState :=
  match modifyFirstContainer (completeInContainer id now) s.containers with
  | some cs => .ok { s with containers := cs }
  | none => .error ("Task not found: " ++ id)

/-- `Storage.delete_task_from_project` (`storage.py` lines 796-818). -/
def delete_task_from_project (s : StorageState) (id : String) (now : DateTime) :
    Except String StorageState :=
  match modifyFirstContainer (deleteInContainer id now) s.containers with
  | some cs => .ok { s with containers := cs }
  | none => .error ("Task not found: " ++ id)

/-- `Storage.update_task_in_project` (`storage.py` lines 770-794). -/
def update_task_in_project (s : StorageState) (id : String) (updates : TaskUpdate) :
    Except String StorageState :=
  match modifyFirstContainer (updateInContainer id) s.containers with
  | some cs => .ok { s with containers := cs }
  | none =>
    let _ := updates
    .error ("Task not found: " ++ id)

/-- The container scan of `get_task_from_any_project` (`storage.py`
lines 743-755): each container's buckets are searched in the order
active, completed, archived, deleted. -/
def getTaskInContainers (id : String) : List ProjectTaskContainer → Option Task
  | [] => none
  | c :: rest =>
    match alookup id c.active_tasks with
    | some t => some t
    | none =>
      match alookup id c.completed_tasks with
      | some t => some t
      | none =>
        match alookup id c.archived_tasks with
        | some t => some t
        | none =>
          match alookup id c.deleted_tasks with
          | some t => some t
          | none => getTaskInContainers id rest

/-- `Storage.get_task_from_any_project` (`storage.py` lines 743-755). -/
def get_task_from_any_project (s : StorageState) (id : String) : Except String Task :=
  match getTaskInContainers id s.containers with
  | some t => .ok t
  | none => .error ("Task not found: " ++ id)

/-- `Storage.list_tasks_across_projects` (`storage.py` lines 841-851):
the port concatenates every container's four buckets in the order
active, completed, archived, deleted; the `filters` argument is ignored
(the "Apply filters (simplified)" comment in the source). -/
def list_tasks_across_projects (s : StorageState) (filters : TaskFilters) : List Task :=
  let _ := filters
  (s.containers.map ProjectTaskContainer.allTasks).flatten

/-- `Storage.list_tasks_in_project` (`storage.py` lines 853-861): same,
for a single container loaded by project name. -/
def list_tasks_in_project (s : StorageState) (project_name : String)
    (filters : TaskFilters) (now : DateTime) : List Task :=
  let _ := filters
  (load_project_task_container s.containers project_name now).allTasks

/-- The moving fold of `fix_completed_tasks_consistency` (`storage.py`
lines 952-962): pop each collected id from the active collection, force
status `done`, stamp `updated_at`, insert into the completed
collection.  (The source's `task.progress = 100` line is commented
out, so `progress` is left untouched.) -/
def fixMove (now : DateTime) : List String → List (String × Task) → List (String × Task) →
    List (String × Task) × List (String × Task)
  | [], act, comp => (act, comp)
  | id :: rest, act, comp =>
    match alookup id act with
    | some task =>
      fixMove now rest (aremove id act)
        (ainsert id { task with status := "done", updated_at := now } comp)
    | none => fixMove now rest act comp

/-- `Storage.fix_completed_tasks_consistency` (`storage.py` lines
943-965): collect the ids of active-collection tasks whose status is
terminal, move each to the completed collection, and report the count
(printed as `Fixed {task_count} completed tasks`). -/
def fix_completed_tasks_consistency (s : StorageState) (now : DateTime) :
    StorageState × Nat :=
  let tasks_to_move :=
    akeys (s.legacy_active.tasks.filter (fun kv => kv.2.status ∈ completed_statuses))
  let task_count := tasks_to_move.length
  let (act, comp) := fixMove now tasks_to_move s.legacy_active.tasks s.legacy_completed.tasks
  ({ s with
      legacy_active := { s.legacy_active with tasks := act }
      legacy_completed := { s.legacy_completed with tasks := comp } },
    task_count)

/-- The legacy tasks gathered by `migrate_to_project_based`
(`storage.py` lines 899-909), in collection order active, completed,
archived. -/
def collectLegacyTasks (s : StorageState) : List Task :=
  avalues s.legacy_active.tasks ++ avalues s.legacy_completed.tasks ++
    avalues s.legacy_archived.tasks

/-- The grouping loop of `migrate_to_project_based` (`storage.py` lines
911-916): a dict from project name (defaulted when empty) to the list
of its tasks, insertion-ordered by first occurrence. -/
def groupByProjectAux (default_project : String) (groups : List (String × List Task)) :
    List Task → List (String × List Task)
  | [] => groups
  | t :: rest =>
    let project := if t.parent_project = "" then default_project else t.parent_project
    let groups :=
      match alookup project groups with
      | some ts => ainsert project (ts ++ [t]) groups
      | none => ainsert project [t] groups
    groupByProjectAux default_project groups rest

/-- The per-group task loop of `migrate_to_project_based` (`storage.py`
lines 923-932): a task found in none of the four buckets is inserted
into the bucket selected by its status string, and counted as migrated
(the count is incremented even when no status branch matches). -/
def migrateGroupAux (c : ProjectTaskContainer) (k : Nat) :
    List Task → ProjectTaskContainer × Nat
  | [] => (c, k)
  | t :: rest =>
    if amem t.id c.active_tasks || amem t.id c.completed_tasks ||
        amem t.id c.archived_tasks || amem t.id c.deleted_tasks then
      migrateGroupAux c k rest
    else
      migrateGroupAux (bucketInsert t c) (k + 1) rest

/-- The per-project loop of `migrate_to_project_based` (`storage.py`
lines 918-939): load or create each group's container, run the task
loop, write the container back, and accumulate the counters. -/
def migrateGroups (now : DateTime) : List (String × List Task) →
    List ProjectTaskContainer → Nat → Nat → List ProjectTaskContainer × Nat × Nat
  | [], containers, migrated, projects => (containers, migrated, projects)
  | (pname, ts) :: rest, containers, migrated, projects =>
    let c := load_project_task_container containers pname now
    let ck := migrateGroupAux c 0 ts
    migrateGroups now rest (save_project_task_container containers ck.1)
      (migrated + ck.2) (projects + 1)

/-- `Storage.migrate_to_project_based` (`storage.py` lines 897-941). -/
def migrate_to_project_based (s : StorageState) (now : DateTime) :
    StorageState × MigrationReport :=
  let all_tasks := collectLegacyTasks s
  let groups := groupByProjectAux s.default_project [] all_tasks
  let result := migrateGroups now groups s.containers 0 0
  ({ s with containers := result.1 },
    { tasks_found := all_tasks.length
      tasks_migrated := result.2.1
      projects_migrated := result.2.2
      errors := [] })

/-! ### Reachability and the bucket-exclusivity property -/

/-- `id` occurs (as a key) somewhere in the container. -/
def ProjectTaskContainer.hasId (c : ProjectTaskContainer) (id : String) : Bool :=
  amem id c.active_tasks || amem id c.completed_tasks ||
    amem id c.archived_tasks || amem id c.deleted_tasks

/-- In how many of the four buckets `id` occurs. -/
def containerBucketCount (c : ProjectTaskContainer) (id : String) : Nat :=
  (if amem id c.active_tasks then 1 else 0) +
    (if amem id c.completed_tasks then 1 else 0) +
    (if amem id c.archived_tasks then 1 else 0) +
    (if amem id c.deleted_tasks then 1 else 0)

/-- The bucket-exclusivity property of the spec: within one container a
task id occurs in at most one of the four buckets, and no task id
occurs in two different containers. -/
def bucketExclusive (s : StorageState) : Prop :=
  (∀ c ∈ s.containers, ∀ id ∈ c.allIds, containerBucketCount c id ≤ 1) ∧
    s.containers.Pairwise (fun c₁ c₂ => ∀ id ∈ c₁.allIds, c₂.hasId id = false)

instance (s : StorageState) : Decidable (bucketExclusive s) := by
  unfold bucketExclusive
  infer_instance

/-- Well-formedness of a directory of containers: within each container
the ids are duplicate-free across the four buckets, and distinct
containers hold disjoint id sets. -/
def containersWF (cs : List ProjectTaskContainer) : Prop :=
  (∀ c ∈ cs, c.allIds.Nodup) ∧
    cs.Pairwise (fun c₁ c₂ => ∀ id, id ∈ c₁.allIds → id ∉ c₂.allIds)

instance (cs : List ProjectTaskContainer) : Decidable (containersWF cs) := by
  unfold containersWF
  infer_instance

/-- Structural well-formedness used as the inductive invariant: the
container files have pairwise distinct hashes (they are distinct file
names in one directory), each container's ids are duplicate-free
across its four buckets, distinct containers hold disjoint id sets,
and the legacy collections are empty (none of the six public task
operations ever writes a legacy collection starting from the empty
store). -/
def StorageState.WF (s : StorageState) : Prop :=
  (s.containers.map ProjectTaskContainer.project_hash).Nodup ∧
    containersWF s.containers ∧
    s.legacy_active.tasks = [] ∧ s.legacy_completed.tasks = [] ∧
    s.legacy_archived.tasks = []

/-- States reachable from an empty store by the six public task
operations of the claim, each invoked with arbitrary arguments and an
arbitrary clock reading; an operation that raises leaves the store
unchanged, so only successful outcomes generate new states. -/
inductive Reachable : StorageState → Prop where
  | empty (now : DateTime) : Reachable (StorageState.empty now)
  | add (s : StorageState) (task : Task) (now : DateTime) :
      Reachable s → Reachable (add_task_to_project s task now)
  | complete (s : StorageState) (id : String) (now : DateTime) (s' : StorageState) :
      Reachable s → complete_task_in_project s id now = .ok s' → Reachable s'
  | delete (s : StorageState) (id : String) (now : DateTime) (s' : StorageState) :
      Reachable s → delete_task_from_project s id now = .ok s' → Reachable s'
  | update (s : StorageState) (id : String) (updates : TaskUpdate) (s' : StorageState) :
      Reachable s → update_task_in_project s id updates = .ok s' → Reachable s'
  | migrate (s : StorageState) (now : DateTime) :
      Reachable s → Reachable (migrate_to_project_based s now).1
  | fix (s : StorageState) (now : DateTime) :
      Reachable s → Reachable (fix_completed_tasks_consistency s now).1

/-- Reachability under the generated-id discipline: identical to
`Reachable` except that `addTaskToProject` is only invoked with a task
whose id is not already present in any container (the way the library
produces ids, via a fresh `task_<uuid4>` at `Task.new`). -/
inductive ReachableFresh : StorageState → Prop where
  | empty (now : DateTime) : ReachableFresh (StorageState.empty now)
  | add (s : StorageState) (task : Task) (now : DateTime) :
      ReachableFresh s → (∀ c ∈ s.containers, task.id ∉ c.allIds) →
      ReachableFresh (add_task_to_project s task now)
  | complete (s : StorageState) (id : String) (now : DateTime) (s' : StorageState) :
      ReachableFresh s → complete_task_in_project s id now = .ok s' → ReachableFresh s'
  | delete (s : StorageState) (id : String) (now : DateTime) (s' : StorageState) :
      ReachableFresh s → delete_task_from_project s id now = .ok s' → ReachableFresh s'
  | update (s : StorageState) (id : String) (updates : TaskUpdate) (s' : StorageState) :
      ReachableFresh s → update_task_in_project s id updates = .ok s' → ReachableFresh s'
  | migrate (s : StorageState) (now : DateTime) :
      ReachableFresh s → ReachableFresh (migrate_to_project_based s now).1
  | fix (s : StorageState) (now : DateTime) :
      ReachableFresh s → ReachableFresh (fix_completed_tasks_consistency s now).1

/-! ### Concrete fixtures used to evaluate the operations -/

/-- A concrete instant (2024-01-01T00:00:00.100000+00:00). -/
def dt0 : DateTime := ⟨2024, 1, 1, 0, 0, 0, 100000⟩

/-- A later concrete instant. -/
def dt1 : DateTime := ⟨2024, 2, 2, 3, 4, 5, 600000⟩

/-- A task record with the given id, status string and progress, all
other fields fixed concrete values. -/
def sampleTask (id status : String) (progress : Option Int) : Task :=
  { id := id
    user_id := "user_1"
    action := "write the report"
    time := "1h"
    priority := "medium"
    parent_project := "p"
    status := status
    assignee := none
    tags := []
    dependencies := []
    context_notes := none
    progress := progress
    embedding_vector := none
    created_at := dt0
    updated_at := dt0 }

/-- A container for project `"p"` with the given buckets. -/
def sampleContainer (act comp arch del : List (String × Task)) : ProjectTaskContainer :=
  { project_name := "p"
    project_hash := hash_project_name "p"
    created_at := dt0
    updated_at := dt0
    active_tasks := act
    completed_tasks := comp
    archived_tasks := arch
    deleted_tasks := del }

/-- A store whose legacy collections hold the given maps and whose
directory holds the given containers. -/
def sampleState (act comp : List (String × Task)) (cs : List ProjectTaskContainer) :
    StorageState :=
  { legacy_active := { version := "1.2.0", created_at := dt0, updated_at := dt0, tasks := act }
    legacy_completed :=
      { version := "1.2.0", created_at := dt0, updated_at := dt0, tasks := comp }
    legacy_archived := TaskCollection.new dt0
    containers := cs
    default_project := "general" }

/-! ### Claim C3: completeTask semantics (evaluated at concrete inputs) -/

/-- A `todo` task with progress 50, resident in `active`. -/
def c3_task : Task := sampleTask "t1" "todo" (some 50)

/-- Store with `c3_task` in the active bucket of project `"p"`. -/
def c3_state : StorageState :=
  sampleState [] [] [sampleContainer [("t1", c3_task)] [] [] []]

/-- Store with `c3_task` in the archived bucket. -/
def c3_arch_state : StorageState :=
  sampleState [] [] [sampleContainer [] [] [("t1", c3_task)] []]

/-- Store with `c3_task` in the deleted bucket. -/
def c3_del_state : StorageState :=
  sampleState [] [] [sampleContainer [] [] [] [("t1", c3_task)]]

/-- What `complete_task_in_project` makes of the task. -/
def c3_moved : Task := { c3_task with status := "done", updated_at := dt1 }

/-- Store after completing `"t1"` from `active`. -/
def c3_after : StorageState :=
  sampleState [] [] [sampleContainer [] [("t1", c3_moved)] [] []]

/-! ### Claim C5: consistency fixer (evaluated at concrete inputs) -/

/-- A task whose status drifted to `done` while still stored in the
legacy active collection, with progress 50. -/
def c5_done : Task := sampleTask "t2" "done" (some 50)

/-- A genuinely active task sharing the collection. -/
def c5_todo : Task := sampleTask "t3" "todo" none

/-- Legacy store: active holds the drifted `t2` and the active `t3`. -/
def c5_state : StorageState := sampleState [("t2", c5_done), ("t3", c5_todo)] [] []

/-- What the fixer makes of the drifted task. -/
def c5_moved : Task := { c5_done with status := "done", updated_at := dt1 }

/-! ### Claim C6: progress bound (evaluated at concrete inputs) -/

/-- A task with no progress value, resident in `active`. -/
def c6_task : Task := sampleTask "t1" "todo" none

/-- Store with `c6_task` in project `"p"`. -/
def c6_state : StorageState :=
  sampleState [] [] [sampleContainer [("t1", c6_task)] [] [] []]

/-- Store after the port's `update_task_in_project`: only the embedding
vector changed. -/
def c6_after : StorageState :=
  sampleState [] [] [sampleContainer [("t1", c6_task.withEmbedding)] [] [] []]

/-! ### Claim C7: list filtering (evaluated at concrete inputs) -/

/-- An active `todo` task. -/
def c7_a : Task := sampleTask "a" "todo" none

/-- A completed `done` task. -/
def c7_b : Task := sampleTask "b" "done" none

/-- Container with `a` active and `b` completed. -/
def c7_container : ProjectTaskContainer :=
  sampleContainer [("a", c7_a)] [("b", c7_b)] [] []

/-- Store with the single container. -/
def c7_state : StorageState := sampleState [] [] [c7_container]

/-- A status filter selecting `done` tasks only. -/
def doneFilter : TaskFilters := { status := some "done" }

/-! ### Claim C8: backup creation on the file tree

`create_backup` (`storage.py` lines 1009-1018) and `copy_dir_recursive`
(lines 1092-1105) act on the storage directory tree; we embed the tree
as a nested inductive.  `copy_dir_recursive` iterates every entry of
the source — there is no exclusion of the `backups` directory — copying
files (`shutil.copy2`) and recursing into directories.  `create_backup`
first creates `backups/<name>` (`mkdir(parents=True)`), then copies the
storage root into it.  Because the destination lies inside the source,
the real copy reads a directory while writing beneath it; we model the
copy as acting on the listing as it stood when the copy started (right
after the `mkdir`), the reading most favorable to the code — even so
the snapshot contains a `backups` subtree. -/

inductive FsTree where
  | file (content : String)
  | dir (entries : List (String × FsTree))

mutual

/-- `copy_dir_recursive` on one tree node. -/
def copyTree : FsTree → FsTree
  | .file c => .file c
  | .dir es => .dir (copyEntries es)

/-- `copy_dir_recursive`: the `for entry in src.iterdir()` loop — every
entry is copied, none excluded. -/
def copyEntries : List (String × FsTree) → List (String × FsTree)
  | [] => []
  | (n, t) :: rest => (n, copyTree t) :: copyEntries rest

end

/-- `Storage.create_backup`: returns the new storage-root entries and
the entries of the snapshot directory `backups/<backup_name>`. -/
def create_backup (storage : List (String × FsTree)) (backup_name : String) :
    List (String × FsTree) × List (String × FsTree) :=
  let backups :=
    match alookup "backups" storage with
    | some (.dir es) => es
    | _ => []
  let storageAtCopy := ainsert "backups" (.dir (ainsert backup_name (.dir []) backups)) storage
  let snapshot := copyEntries storageAtCopy
  (ainsert "backups" (.dir (ainsert backup_name (.dir snapshot) backups)) storage, snapshot)

/-- A concrete storage root: a `tasks` subtree and a `backups` subtree
holding one earlier snapshot. -/
def c8_storage : List (String × FsTree) :=
  [("tasks", .dir [("active.json", .file "A")]),
    ("backups", .dir [("old", .dir [])])]

/-! ### Claim C9: the entity codec (file-level save/load)

`save_project_task_container` (`storage.py` lines 453-464) writes the
container record to `project_tasks/<project_hash>.json` with the two
top-level timestamps rendered by `isoformat`; `load_project_task_container`
(lines 466-483) reads `project_tasks/<md5(name)>.json`, parses the
timestamps back with `fromisoformat` after the `'Z'` replacement, and
returns a fresh container when the file does not exist.
`save_task_collection` / `load_task_collection` (lines 532-560) do the
same for `tasks/<collection_name>.json`.  The directory is embedded as
a keyed list of serialized records; a record whose timestamp text fails
to parse makes the load fail (`ValueError` propagates). -/

/-- The on-disk form of a container: timestamps as text, the rest
structural. -/
structure SerializedContainer where
  project_name : String
  project_hash : String
  created_at : String
  updated_at : String
  active_tasks : List (String × Task)
  completed_tasks : List (String × Task)
  archived_tasks : List (String × Task)
  deleted_tasks : List (String × Task)
  deriving DecidableEq, Repr

/-- The on-disk form of a legacy collection. -/
structure SerializedCollection where
  version : String
  created_at : String
  updated_at : String
  tasks : List (String × Task)
  deriving DecidableEq, Repr

/-- The serialization step of `save_project_task_container`. -/
def serializeContainer (c : ProjectTaskContainer) : SerializedContainer :=
  { project_name := c.project_name
    project_hash := c.project_hash
    created_at := c.created_at.isoformat
    updated_at := c.updated_at.isoformat
    active_tasks := c.active_tasks
    completed_tasks := c.completed_tasks
    archived_tasks := c.archived_tasks
    deleted_tasks := c.deleted_tasks }

/-- `save_project_task_container` at the file level: write the record
under the file named by the container's own `project_hash`. -/
def save_project_task_container_file (dir : List (String × SerializedContainer))
    (c : ProjectTaskContainer) : List (String × SerializedContainer) :=
  ainsert c.project_hash (serializeContainer c) dir

/-- `load_project_task_container` at the file level: look up the file
named by the hash of the project name; a missing file yields a fresh
container, a present record has its timestamps parsed back. -/
def load_project_task_container_file (dir : List (String × SerializedContainer))
    (project_name : String) (now : DateTime) : Option ProjectTaskContainer :=
  match alookup (hash_project_name project_name) dir with
  | none => some (ProjectTaskContainer.new project_name now)
  | some sc =>
    match fromiso sc.created_at, fromiso sc.updated_at with
    | some ca, some ua =>
      some { project_name := sc.project_name
             project_hash := sc.project_hash
             created_at := ca
             updated_at := ua
             active_tasks := sc.active_tasks
             completed_tasks := sc.completed_tasks
             archived_tasks := sc.archived_tasks
             deleted_tasks := sc.deleted_tasks }
    | _, _ => none

/-- The serialization step of `save_task_collection`. -/
def serializeCollection (coll : TaskCollection) : SerializedCollection :=
  { version := coll.version
    created_at := coll.created_at.isoformat
    updated_at := coll.updated_at.isoformat
    tasks := coll.tasks }

/-- `save_task_collection` at the file level. -/
def save_task_collection_file (dir : List (String × SerializedCollection))
    (collection_name : String) (coll : TaskCollection) :
    List (String × SerializedCollection) :=
  ainsert collection_name (serializeCollection coll) dir

/-- `load_task_collection` at the file level. -/
def load_task_collection_file (dir : List (String × SerializedCollection))
    (collection_name : String) (now : DateTime) : Option TaskCollection :=
  match alookup collection_name dir with
  | none => some (TaskCollection.new now)
  | some sc =>
    match fromiso sc.created_at, fromiso sc.updated_at with
    | some ca, some ua =>
      some { version := sc.version, created_at := ca, updated_at := ua, tasks := sc.tasks }
    | _, _ => none

/-- Concrete store for the C4 witness: one container holding `"t1"`
active. -/
def c4w_state : StorageState :=
  sampleState [] [] [sampleContainer [("t1", sampleTask "t1" "todo" none)] [] [] []]

/-! ### Claim C1: bucket exclusivity -/

/-- A `todo` task with id `"t1"` in project `"p"`. -/
def c1_taskA : Task := sampleTask "t1" "todo" none

/-- A `done` task re-using the same id `"t1"`. -/
def c1_taskB : Task := sampleTask "t1" "done" none

/-- The store obtained from the empty store by adding the same id
twice with different statuses. -/
def c1_bad_state : StorageState :=
  add_task_to_project (add_task_to_project (StorageState.empty dt0) c1_taskA dt0)
    c1_taskB dt0

/-- Concrete store for the C2 witness: one legacy active task, no
containers. -/
def c2w_state : StorageState :=
  sampleState [("t1", sampleTask "t1" "todo" none)] [] []

@[simp] theorem akeys_nil {α : Type} : akeys ([] : List (String × α)) = [] := rfl

@[simp] theorem akeys_cons {α : Type} (k : String) (v : α) (l : List (String × α)) :
    akeys ((k, v) :: l) = k :: akeys l := rfl

@[simp] theorem alookup_nil {α : Type} (k : String) :
    alookup k ([] : List (String × α)) = none := rfl

theorem alookup_cons {α : Type} (k k' : String) (v : α) (l : List (String × α)) :
    alookup k ((k', v) :: l) = if k' = k then some v else alookup k l := rfl

theorem alookup_isSome_iff_mem_akeys {α : Type} (k : String) (l : List (String × α)) :
    (alookup k l).isSome = true ↔ k ∈ akeys l := by
  induction l with
  | nil => simp
  | cons hd tl ih =>
    obtain ⟨k', v⟩ := hd
    by_cases h : k' = k
    · subst h
      simp [alookup_cons]
    · rw [alookup_cons, if_neg h]
      simp only [akeys_cons, List.mem_cons]
      constructor
      · intro hx
        exact Or.inr (ih.1 hx)
      · rintro (rfl | hx)
        · exact absurd rfl h
        · exact ih.2 hx

theorem amem_iff_mem_akeys {α : Type} (k : String) (l : List (String × α)) :
    amem k l = true ↔ k ∈ akeys l := by
  simpa [amem] using alookup_isSome_iff_mem_akeys k l

theorem amem_eq_false_iff {α : Type} (k : String) (l : List (String × α)) :
    amem k l = false ↔ k ∉ akeys l := by
  constructor
  · intro h hk
    have := (amem_iff_mem_akeys k l).2 hk
    simp [this] at h
  · intro hk
    cases h : amem k l with
    | false => rfl
    | true => exact absurd ((amem_iff_mem_akeys k l).1 h) hk

theorem akeys_ainsert_of_mem {α : Type} (k : String) (v : α) (l : List (String × α))
    (h : k ∈ akeys l) : akeys (ainsert k v l) = akeys l := by
  induction l with
  | nil => simp at h
  | cons hd tl ih =>
    obtain ⟨k', v'⟩ := hd
    by_cases hk : k' = k
    · subst hk
      simp [ainsert]
    · have hmem : k ∈ akeys tl := by
        rcases (by simpa using h : k = k' ∨ k ∈ akeys tl) with rfl | hmem
        · exact absurd rfl hk
        · exact hmem
      simp [ainsert, hk, ih hmem]

theorem akeys_ainsert_of_not_mem {α : Type} (k : String) (v : α) (l : List (String × α))
    (h : k ∉ akeys l) : akeys (ainsert k v l) = akeys l ++ [k] := by
  induction l with
  | nil => simp [ainsert]
  | cons hd tl ih =>
    obtain ⟨k', v'⟩ := hd
    have hk : k' ≠ k := by
      intro hcon
      exact h (by simp [hcon])
    have htl : k ∉ akeys tl := fun hmem => h (by simp [hmem])
    simp [ainsert, hk, ih htl]

theorem mem_akeys_ainsert {α : Type} (j k : String) (v : α) (l : List (String × α)) :
    j ∈ akeys (ainsert k v l) ↔ j = k ∨ j ∈ akeys l := by
  by_cases h : k ∈ akeys l
  · rw [akeys_ainsert_of_mem k v l h]
    constructor
    · exact Or.inr
    · rintro (rfl | hj)
      · exact h
      · exact hj
  · rw [akeys_ainsert_of_not_mem k v l h]
    simp [or_comm]

theorem akeys_aremove_sublist {α : Type} (k : String) (l : List (String × α)) :
    (akeys (aremove k l)).Sublist (akeys l) := by
  induction l with
  | nil => simp [aremove]
  | cons hd tl ih =>
    obtain ⟨k', v'⟩ := hd
    by_cases hk : k' = k
    · simp only [aremove, if_pos hk, akeys_cons]
      exact (List.sublist_cons_self _ _)
    · simp only [aremove, if_neg hk, akeys_cons]
      exact List.Sublist.cons₂ _ ih

theorem mem_akeys_aremove {α : Type} (j k : String) (l : List (String × α))
    (hnd : (akeys l).Nodup) :
    j ∈ akeys (aremove k l) ↔ j ∈ akeys l ∧ j ≠ k := by
  induction l with
  | nil => simp [aremove]
  | cons hd tl ih =>
    obtain ⟨k', v'⟩ := hd
    rw [akeys_cons, List.nodup_cons] at hnd
    obtain ⟨hknotin, hnd'⟩ := hnd
    by_cases hk : k' = k
    · subst hk
      rw [aremove, if_pos rfl]
      constructor
      · intro hj
        refine ⟨by simp [hj], ?_⟩
        rintro rfl
        exact hknotin hj
      · rintro ⟨hj, hne⟩
        rcases (by simpa using hj : j = k' ∨ j ∈ akeys tl) with rfl | hj'
        · exact absurd rfl hne
        · exact hj'
    · rw [aremove, if_neg hk]
      simp only [akeys_cons, List.mem_cons]
      rw [ih hnd']
      constructor
      · rintro (rfl | ⟨hj, hne⟩)
        · exact ⟨Or.inl rfl, fun hcon => hk hcon⟩
        · exact ⟨Or.inr hj, hne⟩
      · rintro ⟨rfl | hj, hne⟩
        · exact Or.inl rfl
        · exact Or.inr ⟨hj, hne⟩

theorem akeys_ainsert_nodup {α : Type} (k : String) (v : α) (l : List (String × α))
    (hnd : (akeys l).Nodup) : (akeys (ainsert k v l)).Nodup := by
  by_cases h : k ∈ akeys l
  · rwa [akeys_ainsert_of_mem k v l h]
  · rw [akeys_ainsert_of_not_mem k v l h]
    simpa [List.nodup_append] using ⟨hnd, h⟩

theorem akeys_aremove_nodup {α : Type} (k : String) (l : List (String × α))
    (hnd : (akeys l).Nodup) : (akeys (aremove k l)).Nodup :=
  hnd.sublist (akeys_aremove_sublist k l)

theorem alookup_ainsert_self {α : Type} (k : String) (v : α) (l : List (String × α)) :
    alookup k (ainsert k v l) = some v := by
  induction l with
  | nil => simp [ainsert, alookup]
  | cons hd tl ih =>
    obtain ⟨k', v'⟩ := hd
    by_cases hk : k' = k
    · simp [ainsert, hk, alookup_cons]
    · simp [ainsert, hk, alookup_cons, ih]

theorem alookup_ainsert_ne {α : Type} (j k : String) (v : α) (l : List (String × α))
    (h : j ≠ k) : alookup j (ainsert k v l) = alookup j l := by
  induction l with
  | nil => simp [ainsert, alookup_cons, Ne.symm h]
  | cons hd tl ih =>
    obtain ⟨k', v'⟩ := hd
    by_cases hk : k' = k
    · subst hk
      simp [ainsert, alookup_cons, Ne.symm h]
    · by_cases hj : k' = j
      · subst hj
        simp [ainsert, hk, alookup_cons]
      · simp [ainsert, hk, alookup_cons, hj, ih]

theorem alookup_aremove_ne {α : Type} (j k : String) (l : List (String × α))
    (hnd : (akeys l).Nodup) (h : j ≠ k) : alookup j (aremove k l) = alookup j l := by
  induction l with
  | nil => simp [aremove]
  | cons hd tl ih =>
    obtain ⟨k', v'⟩ := hd
    rw [akeys_cons, List.nodup_cons] at hnd
    obtain ⟨hknotin, hnd'⟩ := hnd
    by_cases hk : k' = k
    · subst hk
      rw [aremove, if_pos rfl, alookup_cons, if_neg (fun hcon => h hcon.symm)]
    · rw [aremove, if_neg hk, alookup_cons, alookup_cons, ih hnd']

theorem alookup_eq_none_of_not_mem {α : Type} (k : String) (l : List (String × α))
    (h : k ∉ akeys l) : alookup k l = none := by
  cases hx : alookup k l with
  | none => rfl
  | some v =>
    exact absurd ((alookup_isSome_iff_mem_akeys k l).1 (by simp [hx])) h

theorem alookup_aremove_self {α : Type} (k : String) (l : List (String × α))
    (hnd : (akeys l).Nodup) : alookup k (aremove k l) = none := by
  apply alookup_eq_none_of_not_mem
  intro hmem
  exact ((mem_akeys_aremove k k l hnd).1 hmem).2 rfl

@[simp] theorem natToChars_length (w n : Nat) : (natToChars w n).length = w := by
  induction w generalizing n with
  | zero => simp [natToChars]
  | succ w ih => simp [natToChars, ih]

theorem charDigit_digitChar (d : Nat) (h : d < 10) : charDigit (digitChar d) = some d := by
  interval_cases d <;> rfl

theorem digitsValAux_append (acc : Nat) (l₁ l₂ : List Char) :
    digitsValAux acc (l₁ ++ l₂) =
      match digitsValAux acc l₁ with
      | some a => digitsValAux a l₂
      | none => none := by
  induction l₁ generalizing acc with
  | nil => simp [digitsValAux]
  | cons c cs ih =>
    cases h : charDigit c with
    | some d => simp [digitsValAux, h, ih]
    | none => simp [digitsValAux, h]

theorem digitsValAux_natToChars (acc w n : Nat) (h : n < 10 ^ w) :
    digitsValAux acc (natToChars w n) = some (acc * 10 ^ w + n) := by
  induction w generalizing acc n with
  | zero =>
    have : n = 0 := Nat.lt_one_iff.1 (by simpa using h)
    simp [natToChars, digitsValAux, this]
  | succ w ih =>
    have hdiv : n / 10 < 10 ^ w := by
      rw [Nat.div_lt_iff_lt_mul (by norm_num)]
      calc n < 10 ^ (w + 1) := h
        _ = 10 ^ w * 10 := by ring
    rw [natToChars, digitsValAux_append, ih acc (n / 10) hdiv]
    simp only [digitsValAux, charDigit_digitChar (n % 10) (Nat.mod_lt n (by norm_num))]
    congr 1
    have := Nat.div_add_mod n 10
    ring_nf
    omega

theorem readFixed_natToChars (w n : Nat) (rest : List Char) (h : n < 10 ^ w) :
    readFixed w (natToChars w n ++ rest) = some (n, rest) := by
  have htake : (natToChars w n ++ rest).take w = natToChars w n := by
    rw [List.take_append_eq_append_take]
    simp
  have hdrop : (natToChars w n ++ rest).drop w = rest := by
    rw [List.drop_append_eq_append_drop]
    simp
  rw [readFixed, htake, hdrop]
  simp [digitsValAux_natToChars 0 w n h]

@[simp] theorem expectChar_cons_self (c : Char) (l : List Char) :
    expectChar c (c :: l) = some l := by
  simp [expectChar]

theorem replaceZ_of_not_mem (l : List Char) (h : (⟨90, by decide⟩ : Char) ∉ l) :
    replaceZ l = l := by
  induction l with
  | nil => rfl
  | cons c rest ih =>
    have hc : c ≠ ⟨90, by decide⟩ := fun hcon => h (by simp [hcon])
    have hrest : (⟨90, by decide⟩ : Char) ∉ rest := fun hcon => h (by simp [hcon])
    simp [replaceZ, hc, ih hrest]

theorem digitChar_toNat (d : Nat) (h : d < 10) : (digitChar d).toNat = 48 + d := by
  interval_cases d <;> rfl

theorem not_Z_mem_natToChars (w n : Nat) : (⟨90, by decide⟩ : Char) ∉ natToChars w n := by
  induction w generalizing n with
  | zero => simp [natToChars]
  | succ w ih =>
    rw [natToChars]
    intro hmem
    rcases List.mem_append.1 hmem with hx | hx
    · exact ih (n / 10) hx
    · have : (⟨90, by decide⟩ : Char) = digitChar (n % 10) := by simpa using hx
      have h10 : n % 10 < 10 := Nat.mod_lt n (by norm_num)
      have := congrArg Char.toNat this
      rw [digitChar_toNat (n % 10) h10] at this
      have hval : (⟨90, by decide⟩ : Char).toNat = 90 := rfl
      rw [hval] at this
      omega

theorem not_Z_mem_isoChars (t : DateTime) : (⟨90, by decide⟩ : Char) ∉ t.isoChars := by
  rw [DateTime.isoChars]
  intro hmem
  simp only [List.append_assoc, List.mem_append, List.mem_cons, List.mem_singleton] at hmem
  rcases hmem with h | h | h | h | h | h | h | h | h | h | h | h | h
  · exact not_Z_mem_natToChars 4 t.year h
  · exact absurd h (by decide)
  · exact not_Z_mem_natToChars 2 t.month h
  · exact absurd h (by decide)
  · exact not_Z_mem_natToChars 2 t.day h
  · exact absurd h (by decide)
  · exact not_Z_mem_natToChars 2 t.hour h
  · exact absurd h (by decide)
  · exact not_Z_mem_natToChars 2 t.minute h
  · exact absurd h (by decide)
  · exact not_Z_mem_natToChars 2 t.second h
  · by_cases hus : t.microsecond = 0
    · rw [if_pos hus] at h
      exact List.not_mem_nil _ h
    · rw [if_neg hus] at h
      rcases List.mem_cons.1 h with hc | hc
      · exact absurd hc (by decide)
      · exact not_Z_mem_natToChars 6 t.microsecond hc
  · rcases h with h | h | h | h | h | h <;> exact absurd h (by decide)

theorem parseFracOffset_iso (us : Nat) (h : us < 1000000) :
    parseFracOffset ((if us = 0 then [] else ⟨46, by decide⟩ :: natToChars 6 us) ++
      [⟨43, by decide⟩, ⟨48, by decide⟩, ⟨48, by decide⟩, ⟨58, by decide⟩,
        ⟨48, by decide⟩, ⟨48, by decide⟩]) = some us := by
  by_cases hus : us = 0
  · subst hus
    decide
  · rw [if_neg hus]
    have hr := readFixed_natToChars 6 us
      [⟨43, by decide⟩, ⟨48, by decide⟩, ⟨48, by decide⟩, ⟨58, by decide⟩,
        ⟨48, by decide⟩, ⟨48, by decide⟩] (by simpa using h)
    simp [parseFracOffset, hr]

/-- Round trip of the timestamp codec: parsing the rendered textual form
(after the `'Z'` replacement every load performs) restores the instant. -/
theorem fromiso_isoformat (t : DateTime) (h : t.WF) :
    fromiso t.isoformat = some t := by
  obtain ⟨hy, hmo, hd, hh, hmi, hs, hus⟩ := h
  rw [fromiso, DateTime.isoformat]
  rw [show (String.mk t.isoChars).data = t.isoChars from rfl]
  rw [replaceZ_of_not_mem _ (not_Z_mem_isoChars t)]
  rw [DateTime.isoChars]
  simp only [List.append_assoc, List.cons_append, List.nil_append]
  rw [fromisoChars]
  rw [readFixed_natToChars 4 t.year _ (by simpa using hy)]
  simp only [Option.bind_eq_bind, Option.some_bind, expectChar_cons_self]
  rw [readFixed_natToChars 2 t.month _ (by simpa using hmo)]
  simp only [Option.some_bind, expectChar_cons_self]
  rw [readFixed_natToChars 2 t.day _ (by simpa using hd)]
  simp only [Option.some_bind, expectChar_cons_self]
  rw [readFixed_natToChars 2 t.hour _ (by simpa using hh)]
  simp only [Option.some_bind, expectChar_cons_self]
  rw [readFixed_natToChars 2 t.minute _ (by simpa using hmi)]
  simp only [Option.some_bind, expectChar_cons_self]
  rw [readFixed_natToChars 2 t.second _ (by simpa using hs)]
  simp only [Option.some_bind]
  rw [show ((if t.microsecond = 0 then [] else ⟨46, by decide⟩ :: natToChars 6 t.microsecond) ++
      [⟨43, by decide⟩, ⟨48, by decide⟩, ⟨48, by decide⟩, ⟨58, by decide⟩,
        ⟨48, by decide⟩, ⟨48, by decide⟩] : List Char) =
    ((if t.microsecond = 0 then [] else ⟨46, by decide⟩ :: natToChars 6 t.microsecond) ++
      [⟨43, by decide⟩, ⟨48, by decide⟩, ⟨48, by decide⟩, ⟨58, by decide⟩,
        ⟨48, by decide⟩, ⟨48, by decide⟩]) from rfl]
  rw [parseFracOffset_iso t.microsecond hus]
  rfl

theorem hash_project_name_injective (a b : String)
    (h : hash_project_name a = hash_project_name b) : a = b := by
  have h2 : ("md5:" ++ a).data = ("md5:" ++ b).data := congrArg String.data h
  rw [String.data_append, String.data_append] at h2
  have h3 := List.append_cancel_left h2
  cases a
  cases b
  exact congrArg String.mk (by simpa using h3)

/-! ### Claim C10: status canonicalization -/

/-- C10: `Status.from_str` maps both `"pending"` and `"todo"` to the
same enum value and both `"completed"` and `"done"` to the same enum
value (the Python enum aliases `PENDING = "todo"`, `COMPLETED =
"done"`); converting any parsed status back to a string yields the
canonical form, so for an accepted status string `s` the round-tripped
string differs from `s` exactly when `s` is one of `"pending"`,
`"completed"`, `"in-progress"`, `"canceled"`; re-parsing the canonical
form gives the same value as parsing `s`; and no status value renders
to `"pending"` or `"completed"`, so those spellings are never
representable in stored state. -/
theorem claim_C10_status_canonicalization (s : String)
    (hs : s ∈ acceptedStatusStrings) (v : Status)
    (hv : Status.from_str s = .ok v) :
    Status.PENDING = Status.todo ∧ Status.COMPLETED = Status.done ∧
    Status.from_str "pending" = Status.from_str "todo" ∧
    Status.from_str "completed" = Status.from_str "done" ∧
    (Status.toStr v ≠ s ↔
      s ∈ (["pending", "completed", "in-progress", "canceled"] : List String)) ∧
    Status.from_str (Status.toStr v) = Status.from_str s ∧
    (∀ w : Status, Status.toStr w ≠ "pending" ∧ Status.toStr w ≠ "completed") := by
  revert s hs v hv
  decide

/-- Witness for C10 at the concrete input `"pending"`. -/
theorem claim_C10_status_canonicalization_witness :
    ("pending" ∈ acceptedStatusStrings ∧
      Status.from_str "pending" = .ok Status.todo) ∧
    (Status.toStr Status.todo ≠ "pending" ↔
      "pending" ∈ (["pending", "completed", "in-progress", "canceled"] : List String)) :=
  ⟨⟨by decide, rfl⟩,
    (claim_C10_status_canonicalization "pending" (by decide) Status.todo rfl).2.2.2.2.1⟩

/-- C3: `completeTask` succeeds exactly on tasks in `active` or
`archived` (NotFound on `completed`, `deleted`, or absent), moves the
task to `completed` with status `done` and a stamped `updated_at` —
but, contrary to the claim, it leaves `progress` untouched: the task
completed here keeps `progress = 50` instead of `100` (the storage
port never assigns `progress`, unlike `Task.complete` in `models.py`,
which sets `progress = 100`). -/
theorem claim_C3_complete_task_eval :
    complete_task_in_project c3_state "t1" dt1 = .ok c3_after ∧
    complete_task_in_project c3_arch_state "t1" dt1 = .ok c3_after ∧
    complete_task_in_project c3_after "t1" dt0 = .error "Task not found: t1" ∧
    complete_task_in_project c3_del_state "t1" dt1 = .error "Task not found: t1" ∧
    complete_task_in_project c3_state "zz" dt1 = .error "Task not found: zz" ∧
    getTaskInContainers "t1" c3_after.containers = some c3_moved ∧
    c3_moved.status = "done" ∧ c3_moved.updated_at = dt1 ∧
    c3_moved.progress = some 50 ∧ c3_moved.progress ≠ some 100 :=
  ⟨rfl, rfl, rfl, rfl, rfl, rfl, rfl, rfl, rfl, by decide⟩

/-- C5: `fixConsistency` moves exactly the terminal-status tasks out of
the legacy active collection into completed, stamps `updated_at`,
reports the count, and leaves non-terminal tasks untouched — but,
contrary to the claim, it does not set `progress = 100`: the
`task.progress = 100` line is commented out in the source, so the
moved task keeps `progress = 50`. -/
theorem claim_C5_fix_consistency_eval :
    fix_completed_tasks_consistency c5_state dt1 =
      (sampleState [("t3", c5_todo)] [("t2", c5_moved)] [], 1) ∧
    c5_moved.status = "done" ∧ c5_moved.updated_at = dt1 ∧
    c5_moved.progress = some 50 ∧ c5_moved.progress ≠ some 100 ∧
    alookup "t3"
      (fix_completed_tasks_consistency c5_state dt1).1.legacy_active.tasks =
      some c5_todo :=
  ⟨rfl, rfl, rfl, rfl, by decide, rfl⟩

/-- C6: the storage-layer `updateTask` with `progress = 101` does not
fail with `InvalidArgument` — the port never applies the update, so the
call succeeds and the task's progress stays `none` (and `progress =
100` is likewise silently dropped); the model layer's `Task.update`
(also in this repository) implements the claimed contract: it rejects
`progress = 101` with `Invalid progress` and accepts and assigns
`progress = 100`. -/
theorem claim_C6_progress_bound_eval :
    update_task_in_project c6_state "t1" { progress := some 101 } = .ok c6_after ∧
    c6_task.withEmbedding.progress = none ∧
    update_task_in_project c6_state "t1" { progress := some 100 } = .ok c6_after ∧
    Task.update c6_task { progress := some 101 } dt1 =
      .error "Invalid progress: 101" ∧
    Task.update c6_task { progress := some 100 } dt1 =
      .ok { c6_task with progress := some 100, updated_at := dt1 } :=
  ⟨rfl, rfl, rfl, rfl, rfl⟩

/-- C7: the storage-layer list operations concatenate the buckets in
order active, completed, archived, deleted but ignore the supplied
filters entirely — with a `status = done` filter they still return the
`todo` task `a`, contradicting the claim that every returned task
satisfies every filter; the model layer's `get_filtered_tasks` (also in
this repository) implements the claimed filtering and returns only
`b`. -/
theorem claim_C7_list_filtering_eval :
    list_tasks_across_projects c7_state doneFilter = [c7_a, c7_b] ∧
    list_tasks_in_project c7_state "p" doneFilter dt1 = [c7_a, c7_b] ∧
    c7_a.status = "todo" ∧ ("todo" : String) ≠ "done" ∧
    c7_container.get_filtered_tasks doneFilter = [c7_b] :=
  ⟨rfl, rfl, rfl, by decide, rfl⟩

/-- C8: the snapshot `create_backup` produces contains a `backups`
subtree (with the earlier snapshot and the fresh, still-empty snapshot
directory inside it), contradicting the claim that the `backups`
directory is excluded from the copy; files outside `backups` do appear
with identical contents. -/
theorem claim_C8_backup_exclusion_eval :
    (alookup "backups" (create_backup c8_storage "snap").2).isSome = true ∧
    alookup "backups" (create_backup c8_storage "snap").2 =
      some (.dir [("old", .dir []), ("snap", .dir [])]) ∧
    alookup "tasks" (create_backup c8_storage "snap").2 =
      some (.dir [("active.json", .file "A")]) ∧
    alookup "backups" (create_backup c8_storage "snap").1 =
      some (.dir [("old", .dir []),
        ("snap", .dir (copyEntries (ainsert "backups"
          (.dir [("old", .dir []), ("snap", .dir [])]) c8_storage)))]) :=
  ⟨rfl, rfl, rfl, rfl⟩

/-- C9: loading immediately after saving returns the saved entity for
both entity kinds — the container keyed by its project name (whose
stored `project_hash` is the lookup hash of the name, as every
container created by `ProjectTaskContainer.new` satisfies) and the
legacy collection keyed by its collection name — the timestamps
surviving the textual, timezone-qualified round trip; in particular a
container freshly created for a name loads back equal to itself, and
the lookup hash of the name agrees with its stored `project_hash`. -/
theorem claim_C9_save_load_round_trip
    (cdir : List (String × SerializedContainer)) (c : ProjectTaskContainer)
    (hhash : c.project_hash = hash_project_name c.project_name)
    (hca : c.created_at.WF) (hua : c.updated_at.WF)
    (tdir : List (String × SerializedCollection)) (cname : String)
    (coll : TaskCollection) (hcca : coll.created_at.WF) (hcua : coll.updated_at.WF)
    (name : String) (now now2 : DateTime) (hnow : now.WF) :
    load_project_task_container_file (save_project_task_container_file cdir c)
      c.project_name now2 = some c ∧
    load_task_collection_file (save_task_collection_file tdir cname coll) cname now2 =
      some coll ∧
    load_project_task_container_file
      (save_project_task_container_file cdir (ProjectTaskContainer.new name now))
      name now2 = some (ProjectTaskContainer.new name now) ∧
    hash_project_name name = (ProjectTaskContainer.new name now).project_hash := by
  have hcontainer : ∀ (dir : List (String × SerializedContainer))
      (x : ProjectTaskContainer), x.project_hash = hash_project_name x.project_name →
      x.created_at.WF → x.updated_at.WF →
      load_project_task_container_file (save_project_task_container_file dir x)
        x.project_name now2 = some x := by
    intro dir x hx hxc hxu
    obtain ⟨pn, ph, ca, ua, a, b, d, e⟩ := x
    simp only at hx hxc hxu
    rw [load_project_task_container_file, save_project_task_container_file]
    dsimp only
    rw [← hx, alookup_ainsert_self]
    simp only [serializeContainer, fromiso_isoformat ca hxc, fromiso_isoformat ua hxu]
  refine ⟨hcontainer cdir c hhash hca hua, ?_, hcontainer cdir
    (ProjectTaskContainer.new name now) rfl hnow hnow, rfl⟩
  obtain ⟨ver, ca, ua, ts⟩ := coll
  simp only at hcca hcua
  rw [load_task_collection_file, save_task_collection_file, alookup_ainsert_self]
  simp only [serializeCollection, fromiso_isoformat ca hcca, fromiso_isoformat ua hcua]

/-- Witness for C9 at a concrete container, collection and instants. -/
theorem claim_C9_save_load_round_trip_witness :
    ((sampleContainer [] [] [] []).project_hash =
        hash_project_name (sampleContainer [] [] [] []).project_name ∧
      dt0.WF ∧ dt1.WF) ∧
    load_project_task_container_file
      (save_project_task_container_file [] (sampleContainer [] [] [] []))
      (sampleContainer [] [] [] []).project_name dt1 = some (sampleContainer [] [] [] []) :=
  ⟨⟨rfl, by decide, by decide⟩,
    (claim_C9_save_load_round_trip [] (sampleContainer [] [] [] []) rfl (by decide)
      (by decide) [] "active" (TaskCollection.new dt0) (by decide) (by decide)
      "general" dt0 dt1 (by decide)).1⟩

/-! ### Structural lemmas about containers and the container scans -/

theorem mem_allIds_iff (c : ProjectTaskContainer) (id : String) :
    id ∈ c.allIds ↔ id ∈ akeys c.active_tasks ∨ id ∈ akeys c.completed_tasks ∨
      id ∈ akeys c.archived_tasks ∨ id ∈ akeys c.deleted_tasks := by
  simp [ProjectTaskContainer.allIds, or_assoc]

theorem hasId_iff_mem_allIds (c : ProjectTaskContainer) (id : String) :
    c.hasId id = true ↔ id ∈ c.allIds := by
  simp [ProjectTaskContainer.hasId, amem_iff_mem_akeys, mem_allIds_iff, or_assoc]

theorem hasId_eq_false_iff (c : ProjectTaskContainer) (id : String) :
    c.hasId id = false ↔ id ∉ c.allIds := by
  constructor
  · intro h hmem
    have := (hasId_iff_mem_allIds c id).2 hmem
    simp [this] at h
  · intro hmem
    cases h : c.hasId id with
    | false => rfl
    | true => exact absurd ((hasId_iff_mem_allIds c id).1 h) hmem

/-- Unpacking `Nodup` of the concatenated id lists: each bucket's keys
are duplicate-free and the four key lists are pairwise disjoint. -/
theorem containerNodup_parts (c : ProjectTaskContainer) (h : c.allIds.Nodup) :
    ((akeys c.active_tasks).Nodup ∧ (akeys c.completed_tasks).Nodup ∧
      (akeys c.archived_tasks).Nodup ∧ (akeys c.deleted_tasks).Nodup) ∧
    (∀ id, id ∈ akeys c.active_tasks →
      id ∉ akeys c.completed_tasks ∧ id ∉ akeys c.archived_tasks ∧
        id ∉ akeys c.deleted_tasks) ∧
    (∀ id, id ∈ akeys c.completed_tasks →
      id ∉ akeys c.archived_tasks ∧ id ∉ akeys c.deleted_tasks) ∧
    (∀ id, id ∈ akeys c.archived_tasks → id ∉ akeys c.deleted_tasks) := by
  rw [ProjectTaskContainer.allIds] at h
  simp only [List.nodup_append, List.disjoint_append_left, List.Disjoint,
    List.mem_append, or_imp, forall_and] at h
  obtain ⟨⟨⟨hna, hnb, hab⟩, hnc, hac, hbc⟩, hnd, ⟨had, hbd⟩, hcd⟩ := h
  refine ⟨⟨hna, hnb, hnc, hnd⟩, ?_, ?_, ?_⟩
  · intro id hid
    exact ⟨fun hx => hab hid hx, fun hx => hac id hid hx, fun hx => had id hid hx⟩
  · intro id hid
    exact ⟨fun hx => hbc id hid hx, fun hx => hbd id hid hx⟩
  · intro id hid hx
    exact hcd id hid hx

/-- `Nodup` of the concatenated id lists bounds the bucket count by
one. -/
theorem containerBucketCount_le_one (c : ProjectTaskContainer) (h : c.allIds.Nodup)
    (id : String) : containerBucketCount c id ≤ 1 := by
  obtain ⟨_, hA, hB, hC⟩ := containerNodup_parts c h
  cases ha : amem id c.active_tasks <;> cases hb : amem id c.completed_tasks <;>
    cases hc2 : amem id c.archived_tasks <;> cases hd2 : amem id c.deleted_tasks <;>
    first
    | (simp [containerBucketCount, ha, hb, hc2, hd2]; done)
    | exact absurd ((amem_iff_mem_akeys id _).1 hb)
        ((hA id ((amem_iff_mem_akeys id _).1 ha)).1)
    | exact absurd ((amem_iff_mem_akeys id _).1 hc2)
        ((hA id ((amem_iff_mem_akeys id _).1 ha)).2.1)
    | exact absurd ((amem_iff_mem_akeys id _).1 hd2)
        ((hA id ((amem_iff_mem_akeys id _).1 ha)).2.2)
    | exact absurd ((amem_iff_mem_akeys id _).1 hc2)
        ((hB id ((amem_iff_mem_akeys id _).1 hb)).1)
    | exact absurd ((amem_iff_mem_akeys id _).1 hd2)
        ((hB id ((amem_iff_mem_akeys id _).1 hb)).2)
    | exact absurd ((amem_iff_mem_akeys id _).1 hd2)
        (hC id ((amem_iff_mem_akeys id _).1 hc2))

/-- A successful `modifyFirstContainer` splits the directory at the
first container the bucket operation succeeds on. -/
theorem modifyFirstContainer_eq_some (f : ProjectTaskContainer → Option ProjectTaskContainer)
    (cs cs' : List ProjectTaskContainer) (h : modifyFirstContainer f cs = some cs') :
    ∃ pre c c' post, cs = pre ++ c :: post ∧ cs' = pre ++ c' :: post ∧
      f c = some c' ∧ ∀ x ∈ pre, f x = none := by
  induction cs generalizing cs' with
  | nil => exact absurd h (by simp [modifyFirstContainer])
  | cons c rest ih =>
    rw [modifyFirstContainer] at h
    cases hf : f c with
    | some c' =>
      rw [hf] at h
      have hcs' : cs' = c' :: rest := by simpa using h.symm
      exact ⟨[], c, c', rest, by simp, by simp [hcs'], hf, by simp⟩
    | none =>
      rw [hf] at h
      cases hrest : modifyFirstContainer f rest with
      | none => rw [hrest] at h; exact absurd h (by simp)
      | some cs'' =>
        rw [hrest] at h
        obtain ⟨pre, cm, cm', post, h1, h2, h3, h4⟩ := ih cs'' hrest
        have hcs' : cs' = c :: cs'' := by
          simpa using h.symm
        refine ⟨c :: pre, cm, cm', post, by simp [h1], by simp [hcs', h2], h3, ?_⟩
        intro x hx
        rcases List.mem_cons.1 hx with rfl | hx
        · exact hf
        · exact h4 x hx

/-- `modifyFirstContainer` succeeds as soon as some container admits
the bucket operation. -/
theorem modifyFirstContainer_isSome (f : ProjectTaskContainer → Option ProjectTaskContainer)
    (cs : List ProjectTaskContainer) (h : ∃ c ∈ cs, (f c).isSome) :
    (modifyFirstContainer f cs).isSome := by
  induction cs with
  | nil => simp at h
  | cons c rest ih =>
    rw [modifyFirstContainer]
    cases hf : f c with
    | some c' => simp
    | none =>
      obtain ⟨x, hx, hfx⟩ := h
      rcases List.mem_cons.1 hx with rfl | hx
      · rw [hf] at hfx; simp at hfx
      · have := ih ⟨x, hx, hfx⟩
        cases hrest : modifyFirstContainer f rest with
        | none => rw [hrest] at this; simp at this
        | some cs'' => simp

/-- A container without the id contributes nothing to the
`get_task_from_any_project` scan. -/
theorem getTaskInContainers_cons_not_mem (id : String) (c : ProjectTaskContainer)
    (rest : List ProjectTaskContainer) (h : id ∉ c.allIds) :
    getTaskInContainers id (c :: rest) = getTaskInContainers id rest := by
  rw [mem_allIds_iff] at h
  push_neg at h
  obtain ⟨h1, h2, h3, h4⟩ := h
  rw [getTaskInContainers, alookup_eq_none_of_not_mem _ _ h1,
    alookup_eq_none_of_not_mem _ _ h2, alookup_eq_none_of_not_mem _ _ h3,
    alookup_eq_none_of_not_mem _ _ h4]

/-- Scanning past a prefix of containers none of which holds the id. -/
theorem getTaskInContainers_append_not_mem (id : String)
    (pre rest : List ProjectTaskContainer) (h : ∀ x ∈ pre, id ∉ x.allIds) :
    getTaskInContainers id (pre ++ rest) = getTaskInContainers id rest := by
  induction pre with
  | nil => simp
  | cons c pre ih =>
    rw [List.cons_append, getTaskInContainers_cons_not_mem id c _ (h c (by simp))]
    exact ih (fun x hx => h x (by simp [hx]))

/-- Unpacking `Nodup` of a four-list concatenation. -/
theorem nodup4_parts (A B C D : List String) (h : (A ++ B ++ C ++ D).Nodup) :
    (A.Nodup ∧ B.Nodup ∧ C.Nodup ∧ D.Nodup) ∧
    (∀ j, j ∈ A → j ∉ B ∧ j ∉ C ∧ j ∉ D) ∧
    (∀ j, j ∈ B → j ∉ C ∧ j ∉ D) ∧
    (∀ j, j ∈ C → j ∉ D) := by
  simp only [List.nodup_append, List.disjoint_append_left, List.Disjoint,
    List.mem_append, or_imp, forall_and] at h
  obtain ⟨⟨⟨hna, hnb, hab⟩, hnc, hac, hbc⟩, hnd, ⟨had, hbd⟩, hcd⟩ := h
  refine ⟨⟨hna, hnb, hnc, hnd⟩, ?_, ?_, ?_⟩
  · intro j hj
    exact ⟨fun hx => hab hj hx, fun hx => hac j hj hx, fun hx => had j hj hx⟩
  · intro j hj
    exact ⟨fun hx => hbc j hj hx, fun hx => hbd j hj hx⟩
  · intro j hj hx
    exact hcd j hj hx

/-- Assembling `Nodup` of a four-list concatenation from the component
nodups and pairwise disjointness. -/
theorem nodup4_mk (A B C D : List String)
    (na : A.Nodup) (nb : B.Nodup) (nc : C.Nodup) (nd : D.Nodup)
    (hab : ∀ j ∈ A, j ∉ B) (hac : ∀ j ∈ A, j ∉ C) (had : ∀ j ∈ A, j ∉ D)
    (hbc : ∀ j ∈ B, j ∉ C) (hbd : ∀ j ∈ B, j ∉ D) (hcd : ∀ j ∈ C, j ∉ D) :
    (A ++ B ++ C ++ D).Nodup := by
  simp only [List.nodup_append, List.disjoint_append_left, List.Disjoint,
    List.mem_append, or_imp, forall_and]
  exact ⟨⟨⟨na, nb, fun {j} hj => hab j hj⟩, nc, fun j hj => hac j hj,
    fun j hj => hbc j hj⟩, nd, ⟨fun j hj => had j hj, fun j hj => hbd j hj⟩,
    fun j hj => hcd j hj⟩

/-- The id lists of the four buckets after a remove-then-insert
relocation of `id` (or a fresh insert): each bucket's new id list is
characterized against its old one, exactly one bucket receives `id`,
and the whole remains duplicate-free with id set `{id} ∪ old`. -/
theorem nodup_four_move (A B C D A1 B1 C1 D1 : List String) (id : String)
    (insA insB insC insD : Prop)
    (hone : (insA ∧ ¬insB ∧ ¬insC ∧ ¬insD) ∨ (¬insA ∧ insB ∧ ¬insC ∧ ¬insD) ∨
      (¬insA ∧ ¬insB ∧ insC ∧ ¬insD) ∨ (¬insA ∧ ¬insB ∧ ¬insC ∧ insD))
    (hnd : (A ++ B ++ C ++ D).Nodup)
    (hA1 : ∀ j, j ∈ A1 ↔ (j ∈ A ∧ j ≠ id) ∨ (j = id ∧ insA))
    (hB1 : ∀ j, j ∈ B1 ↔ (j ∈ B ∧ j ≠ id) ∨ (j = id ∧ insB))
    (hC1 : ∀ j, j ∈ C1 ↔ (j ∈ C ∧ j ≠ id) ∨ (j = id ∧ insC))
    (hD1 : ∀ j, j ∈ D1 ↔ (j ∈ D ∧ j ≠ id) ∨ (j = id ∧ insD))
    (nA1 : A1.Nodup) (nB1 : B1.Nodup) (nC1 : C1.Nodup) (nD1 : D1.Nodup) :
    (A1 ++ B1 ++ C1 ++ D1).Nodup ∧
    (∀ j, j ∈ A1 ++ B1 ++ C1 ++ D1 ↔ j = id ∨ j ∈ A ++ B ++ C ++ D) := by
  obtain ⟨_, hA, hB, hC⟩ := nodup4_parts A B C D hnd
  constructor
  · refine nodup4_mk A1 B1 C1 D1 nA1 nB1 nC1 nD1 ?_ ?_ ?_ ?_ ?_ ?_
    · intro j hj hj2
      rw [hA1 j] at hj; rw [hB1 j] at hj2
      have hd := fun hx : j ∈ A => (hA j hx).1
      tauto
    · intro j hj hj2
      rw [hA1 j] at hj; rw [hC1 j] at hj2
      have hd := fun hx : j ∈ A => (hA j hx).2.1
      tauto
    · intro j hj hj2
      rw [hA1 j] at hj; rw [hD1 j] at hj2
      have hd := fun hx : j ∈ A => (hA j hx).2.2
      tauto
    · intro j hj hj2
      rw [hB1 j] at hj; rw [hC1 j] at hj2
      have hd := fun hx : j ∈ B => (hB j hx).1
      tauto
    · intro j hj hj2
      rw [hB1 j] at hj; rw [hD1 j] at hj2
      have hd := fun hx : j ∈ B => (hB j hx).2
      tauto
    · intro j hj hj2
      rw [hC1 j] at hj; rw [hD1 j] at hj2
      have hd := fun hx : j ∈ C => hC j hx
      tauto
  · intro j
    simp only [List.mem_append, hA1 j, hB1 j, hC1 j, hD1 j]
    rcases hone with ⟨h1, h2, h3, h4⟩ | ⟨h1, h2, h3, h4⟩ | ⟨h1, h2, h3, h4⟩ | ⟨h1, h2, h3, h4⟩ <;>
      by_cases hji : j = id <;> simp [hji, h1, h2, h3, h4] <;> tauto

/-- An untouched bucket that does not hold `id` satisfies the
relocation characterization with `ins = False`. -/
theorem char_untouched (X : List String) (id : String) (hid : id ∉ X) :
    ∀ j, j ∈ X ↔ (j ∈ X ∧ j ≠ id) ∨ (j = id ∧ False) := by
  intro j
  constructor
  · intro hj
    exact Or.inl ⟨hj, fun hji => hid (hji ▸ hj)⟩
  · rintro (⟨hj, _⟩ | ⟨_, h⟩)
    · exact hj
    · exact h.elim

/-- The source bucket after `aremove` satisfies the characterization
with `ins = False`. -/
theorem char_removed (X : List (String × Task)) (id : String)
    (hnd : (akeys X).Nodup) :
    ∀ j, j ∈ akeys (aremove id X) ↔ (j ∈ akeys X ∧ j ≠ id) ∨ (j = id ∧ False) := by
  intro j
  rw [mem_akeys_aremove j id X hnd]
  simp

/-- The destination bucket after `ainsert` of an id it did not hold
satisfies the characterization with `ins = True`. -/
theorem char_inserted (X : List (String × Task)) (id : String) (t : Task)
    (hid : id ∉ akeys X) :
    ∀ j, j ∈ akeys (ainsert id t X) ↔ (j ∈ akeys X ∧ j ≠ id) ∨ (j = id ∧ True) := by
  intro j
  rw [mem_akeys_ainsert j id t X]
  constructor
  · rintro (rfl | hj)
    · exact Or.inr ⟨rfl, trivial⟩
    · exact Or.inl ⟨hj, fun hji => hid (hji ▸ hj)⟩
  · rintro (⟨hj, _⟩ | ⟨rfl, _⟩)
    · exact Or.inr hj
    · exact Or.inl rfl

/-- `deleteInContainer` fails exactly when the id is in none of
`active`, `completed`, `archived`. -/
theorem deleteInContainer_eq_none_iff (id : String) (now : DateTime)
    (c : ProjectTaskContainer) :
    deleteInContainer id now c = none ↔
      alookup id c.active_tasks = none ∧ alookup id c.completed_tasks = none ∧
        alookup id c.archived_tasks = none := by
  rw [deleteInContainer]
  cases alookup id c.active_tasks <;> cases alookup id c.completed_tasks <;>
    cases alookup id c.archived_tasks <;> simp

/-- Full specification of a successful `deleteInContainer`: the task is
found in `active`, `completed` or `archived`, reappears only in
`deleted` with status `cancelled` and a stamped `updated_at`, the
container's identity is unchanged, its id set is unchanged, and
duplicate-freeness is preserved. -/
theorem deleteInContainer_spec (id : String) (now : DateTime)
    (c c' : ProjectTaskContainer) (hnd : c.allIds.Nodup)
    (h : deleteInContainer id now c = some c') :
    ∃ t, (alookup id c.active_tasks = some t ∨ alookup id c.completed_tasks = some t ∨
        alookup id c.archived_tasks = some t) ∧
      c'.project_hash = c.project_hash ∧ c'.project_name = c.project_name ∧
      alookup id c'.deleted_tasks =
        some { t with status := "cancelled", updated_at := now } ∧
      alookup id c'.active_tasks = none ∧ alookup id c'.completed_tasks = none ∧
      alookup id c'.archived_tasks = none ∧
      (∀ j, j ∈ c'.allIds ↔ j ∈ c.allIds) ∧ c'.allIds.Nodup := by
  obtain ⟨⟨na, nb, nc, nd⟩, hA, hB, hC⟩ := containerNodup_parts c hnd
  rw [deleteInContainer] at h
  cases ha : alookup id c.active_tasks with
  | some t =>
    rw [ha] at h
    have hc' : c' = { c with
        active_tasks := aremove id c.active_tasks
        deleted_tasks :=
          ainsert id { t with status := "cancelled", updated_at := now }
            c.deleted_tasks } := by
      simpa using h.symm
    subst hc'
    have hmemA : id ∈ akeys c.active_tasks :=
      (alookup_isSome_iff_mem_akeys id _).1 (by simp [ha])
    obtain ⟨hnotB, hnotC, hnotD⟩ := hA id hmemA
    have hmove := nodup_four_move (akeys c.active_tasks) (akeys c.completed_tasks)
      (akeys c.archived_tasks) (akeys c.deleted_tasks)
      (akeys (aremove id c.active_tasks)) (akeys c.completed_tasks)
      (akeys c.archived_tasks)
      (akeys (ainsert id { t with status := "cancelled", updated_at := now }
        c.deleted_tasks)) id False False False True
      (by tauto) hnd (char_removed _ id na) (char_untouched _ id hnotB)
      (char_untouched _ id hnotC) (char_inserted _ id _ hnotD)
      (akeys_aremove_nodup id _ na) nb nc (akeys_ainsert_nodup id _ _ nd)
    refine ⟨t, Or.inl rfl, rfl, rfl, alookup_ainsert_self _ _ _,
      alookup_aremove_self id _ na, alookup_eq_none_of_not_mem _ _ hnotB,
      alookup_eq_none_of_not_mem _ _ hnotC, ?_, hmove.1⟩
    intro j
    have := hmove.2 j
    rw [ProjectTaskContainer.allIds, ProjectTaskContainer.allIds]
    constructor
    · intro hj
      rcases (this.1 (by simpa using hj)) with heq | hj2
      · subst heq
        simp only [List.mem_append, or_assoc]
        exact Or.inl hmemA
      · simpa using hj2
    · intro hj
      simpa using this.2 (Or.inr (by simpa using hj))
  | none =>
    rw [ha] at h
    cases hb : alookup id c.completed_tasks with
    | some t =>
      rw [hb] at h
      have hc' : c' = { c with
          completed_tasks := aremove id c.completed_tasks
          deleted_tasks :=
            ainsert id { t with status := "cancelled", updated_at := now }
              c.deleted_tasks } := by
        simpa using h.symm
      subst hc'
      have hmemB : id ∈ akeys c.completed_tasks :=
        (alookup_isSome_iff_mem_akeys id _).1 (by simp [hb])
      have hnotA : id ∉ akeys c.active_tasks := by
        intro hx
        exact (hA id hx).1 hmemB
      obtain ⟨hnotC, hnotD⟩ := hB id hmemB
      have hmove := nodup_four_move (akeys c.active_tasks) (akeys c.completed_tasks)
        (akeys c.archived_tasks) (akeys c.deleted_tasks)
        (akeys c.active_tasks) (akeys (aremove id c.completed_tasks))
        (akeys c.archived_tasks)
        (akeys (ainsert id { t with status := "cancelled", updated_at := now }
          c.deleted_tasks)) id False False False True
        (by tauto) hnd (char_untouched _ id hnotA) (char_removed _ id nb)
        (char_untouched _ id hnotC) (char_inserted _ id _ hnotD)
        na (akeys_aremove_nodup id _ nb) nc (akeys_ainsert_nodup id _ _ nd)
      refine ⟨t, Or.inr (Or.inl rfl), rfl, rfl, alookup_ainsert_self _ _ _,
        ha, alookup_aremove_self id _ nb,
        alookup_eq_none_of_not_mem _ _ hnotC, ?_, hmove.1⟩
      intro j
      have := hmove.2 j
      rw [ProjectTaskContainer.allIds, ProjectTaskContainer.allIds]
      constructor
      · intro hj
        rcases (this.1 (by simpa using hj)) with heq | hj2
        · subst heq
          simp only [List.mem_append, or_assoc]
          exact Or.inr (Or.inl hmemB)
        · simpa using hj2
      · intro hj
        simpa using this.2 (Or.inr (by simpa using hj))
    | none =>
      rw [hb] at h
      cases hcc : alookup id c.archived_tasks with
      | some t =>
        rw [hcc] at h
        have hc' : c' = { c with
            archived_tasks := aremove id c.archived_tasks
            deleted_tasks :=
              ainsert id { t with status := "cancelled", updated_at := now }
                c.deleted_tasks } := by
          simpa using h.symm
        subst hc'
        have hmemC : id ∈ akeys c.archived_tasks :=
          (alookup_isSome_iff_mem_akeys id _).1 (by simp [hcc])
        have hnotA : id ∉ akeys c.active_tasks := by
          intro hx
          exact (hA id hx).2.1 hmemC
        have hnotB : id ∉ akeys c.completed_tasks := by
          intro hx
          exact (hB id hx).1 hmemC
        have hnotD : id ∉ akeys c.deleted_tasks := hC id hmemC
        have hmove := nodup_four_move (akeys c.active_tasks) (akeys c.completed_tasks)
          (akeys c.archived_tasks) (akeys c.deleted_tasks)
          (akeys c.active_tasks) (akeys c.completed_tasks)
          (akeys (aremove id c.archived_tasks))
          (akeys (ainsert id { t with status := "cancelled", updated_at := now }
            c.deleted_tasks)) id False False False True
          (by tauto) hnd (char_untouched _ id hnotA) (char_untouched _ id hnotB)
          (char_removed _ id nc) (char_inserted _ id _ hnotD)
          na nb (akeys_aremove_nodup id _ nc) (akeys_ainsert_nodup id _ _ nd)
        refine ⟨t, Or.inr (Or.inr rfl), rfl, rfl, alookup_ainsert_self _ _ _,
          ha, hb, alookup_aremove_self id _ nc, ?_, hmove.1⟩
        intro j
        have := hmove.2 j
        rw [ProjectTaskContainer.allIds, ProjectTaskContainer.allIds]
        constructor
        · intro hj
          rcases (this.1 (by simpa using hj)) with heq | hj2
          · subst heq
            simp only [List.mem_append, or_assoc]
            exact Or.inr (Or.inr (Or.inl hmemC))
          · simpa using hj2
        · intro hj
          simpa using this.2 (Or.inr (by simpa using hj))
      | none =>
        rw [hcc] at h
        exact absurd h (by simp)

/-- `completeInContainer` fails exactly when the id is in neither
`active` nor `archived`. -/
theorem completeInContainer_eq_none_iff (id : String) (now : DateTime)
    (c : ProjectTaskContainer) :
    completeInContainer id now c = none ↔
      alookup id c.active_tasks = none ∧ alookup id c.archived_tasks = none := by
  rw [completeInContainer]
  cases alookup id c.active_tasks <;> cases alookup id c.archived_tasks <;> simp

/-- Full specification of a successful `completeInContainer`: the task
is found in `active` or `archived`, reappears only in `completed` with
status `done` and a stamped `updated_at`, the container's identity is
unchanged, its id set is unchanged, and duplicate-freeness is
preserved. -/
theorem completeInContainer_spec (id : String) (now : DateTime)
    (c c' : ProjectTaskContainer) (hnd : c.allIds.Nodup)
    (h : completeInContainer id now c = some c') :
    ∃ t, (alookup id c.active_tasks = some t ∨ alookup id c.archived_tasks = some t) ∧
      c'.project_hash = c.project_hash ∧ c'.project_name = c.project_name ∧
      alookup id c'.completed_tasks =
        some { t with status := "done", updated_at := now } ∧
      alookup id c'.active_tasks = none ∧ alookup id c'.archived_tasks = none ∧
      alookup id c'.deleted_tasks = none ∧
      (∀ j, j ∈ c'.allIds ↔ j ∈ c.allIds) ∧ c'.allIds.Nodup := by
  obtain ⟨⟨na, nb, nc, nd⟩, hA, hB, hC⟩ := containerNodup_parts c hnd
  rw [completeInContainer] at h
  cases ha : alookup id c.active_tasks with
  | some t =>
    rw [ha] at h
    have hc' : c' = { c with
        active_tasks := aremove id c.active_tasks
        completed_tasks :=
          ainsert id { t with status := "done", updated_at := now }
            c.completed_tasks } := by
      simpa using h.symm
    subst hc'
    have hmemA : id ∈ akeys c.active_tasks :=
      (alookup_isSome_iff_mem_akeys id _).1 (by simp [ha])
    obtain ⟨hnotB, hnotC, hnotD⟩ := hA id hmemA
    have hmove := nodup_four_move (akeys c.active_tasks) (akeys c.completed_tasks)
      (akeys c.archived_tasks) (akeys c.deleted_tasks)
      (akeys (aremove id c.active_tasks))
      (akeys (ainsert id { t with status := "done", updated_at := now }
        c.completed_tasks))
      (akeys c.archived_tasks) (akeys c.deleted_tasks) id False True False False
      (by tauto) hnd (char_removed _ id na) (char_inserted _ id _ hnotB)
      (char_untouched _ id hnotC) (char_untouched _ id hnotD)
      (akeys_aremove_nodup id _ na) (akeys_ainsert_nodup id _ _ nb) nc nd
    refine ⟨t, Or.inl rfl, rfl, rfl, alookup_ainsert_self _ _ _,
      alookup_aremove_self id _ na, alookup_eq_none_of_not_mem _ _ hnotC,
      alookup_eq_none_of_not_mem _ _ hnotD, ?_, hmove.1⟩
    intro j
    have := hmove.2 j
    rw [ProjectTaskContainer.allIds, ProjectTaskContainer.allIds]
    constructor
    · intro hj
      rcases (this.1 (by simpa using hj)) with heq | hj2
      · subst heq
        simp only [List.mem_append, or_assoc]
        exact Or.inl hmemA
      · simpa using hj2
    · intro hj
      simpa using this.2 (Or.inr (by simpa using hj))
  | none =>
    rw [ha] at h
    cases hcc : alookup id c.archived_tasks with
    | some t =>
      rw [hcc] at h
      have hc' : c' = { c with
          archived_tasks := aremove id c.archived_tasks
          completed_tasks :=
            ainsert id { t with status := "done", updated_at := now }
              c.completed_tasks } := by
        simpa using h.symm
      subst hc'
      have hmemC : id ∈ akeys c.archived_tasks :=
        (alookup_isSome_iff_mem_akeys id _).1 (by simp [hcc])
      have hnotA : id ∉ akeys c.active_tasks := by
        intro hx
        exact (hA id hx).2.1 hmemC
      have hnotB : id ∉ akeys c.completed_tasks := by
        intro hx
        exact (hB id hx).1 hmemC
      have hnotD : id ∉ akeys c.deleted_tasks := hC id hmemC
      have hmove := nodup_four_move (akeys c.active_tasks) (akeys c.completed_tasks)
        (akeys c.archived_tasks) (akeys c.deleted_tasks)
        (akeys c.active_tasks)
        (akeys (ainsert id { t with status := "done", updated_at := now }
          c.completed_tasks))
        (akeys (aremove id c.archived_tasks)) (akeys c.deleted_tasks) id
        False True False False
        (by tauto) hnd (char_untouched _ id hnotA) (char_inserted _ id _ hnotB)
        (char_removed _ id nc) (char_untouched _ id hnotD)
        na (akeys_ainsert_nodup id _ _ nb) (akeys_aremove_nodup id _ nc) nd
      refine ⟨t, Or.inr rfl, rfl, rfl, alookup_ainsert_self _ _ _,
        ha, alookup_aremove_self id _ nc,
        alookup_eq_none_of_not_mem _ _ hnotD, ?_, hmove.1⟩
      intro j
      have := hmove.2 j
      rw [ProjectTaskContainer.allIds, ProjectTaskContainer.allIds]
      constructor
      · intro hj
        rcases (this.1 (by simpa using hj)) with heq | hj2
        · subst heq
          simp only [List.mem_append, or_assoc]
          exact Or.inr (Or.inr (Or.inl hmemC))
        · simpa using hj2
      · intro hj
        simpa using this.2 (Or.inr (by simpa using hj))
    | none =>
      rw [hcc] at h
      exact absurd h (by simp)

/-- `updateInContainer` fails exactly when the id is in none of the
four buckets; on success it only replaces the found task's embedding
in place, leaving every bucket's key list unchanged. -/
theorem updateInContainer_spec (id : String) (c c' : ProjectTaskContainer)
    (hnd : c.allIds.Nodup) (h : updateInContainer id c = some c') :
    c'.project_hash = c.project_hash ∧ c'.project_name = c.project_name ∧
      c'.allIds = c.allIds ∧ c'.allIds.Nodup := by
  rw [updateInContainer] at h
  cases ha : alookup id c.active_tasks with
  | some t =>
    rw [ha] at h
    have hc' : c' = { c with
        active_tasks := ainsert id t.withEmbedding c.active_tasks } := by
      simpa using h.symm
    subst hc'
    have hmem : id ∈ akeys c.active_tasks :=
      (alookup_isSome_iff_mem_akeys id _).1 (by simp [ha])
    have hkeys : akeys (ainsert id t.withEmbedding c.active_tasks) =
        akeys c.active_tasks := akeys_ainsert_of_mem id _ _ hmem
    constructor
    · rfl
    constructor
    · rfl
    constructor
    · rw [ProjectTaskContainer.allIds, ProjectTaskContainer.allIds]
      rw [show ({ c with active_tasks := ainsert id t.withEmbedding c.active_tasks } :
        ProjectTaskContainer).active_tasks = ainsert id t.withEmbedding c.active_tasks
        from rfl, hkeys]
    · rw [ProjectTaskContainer.allIds]
      rw [show ({ c with active_tasks := ainsert id t.withEmbedding c.active_tasks } :
        ProjectTaskContainer).active_tasks = ainsert id t.withEmbedding c.active_tasks
        from rfl, hkeys]
      exact hnd
  | none =>
    rw [ha] at h
    cases hb : alookup id c.completed_tasks with
    | some t =>
      rw [hb] at h
      have hc' : c' = { c with
          completed_tasks := ainsert id t.withEmbedding c.completed_tasks } := by
        simpa using h.symm
      subst hc'
      have hmem : id ∈ akeys c.completed_tasks :=
        (alookup_isSome_iff_mem_akeys id _).1 (by simp [hb])
      have hkeys : akeys (ainsert id t.withEmbedding c.completed_tasks) =
          akeys c.completed_tasks := akeys_ainsert_of_mem id _ _ hmem
      refine ⟨rfl, rfl, ?_, ?_⟩
      · rw [ProjectTaskContainer.allIds, ProjectTaskContainer.allIds]
        rw [show ({ c with completed_tasks := ainsert id t.withEmbedding c.completed_tasks } :
          ProjectTaskContainer).completed_tasks = ainsert id t.withEmbedding c.completed_tasks
          from rfl, hkeys]
      · rw [ProjectTaskContainer.allIds]
        rw [show ({ c with completed_tasks := ainsert id t.withEmbedding c.completed_tasks } :
          ProjectTaskContainer).completed_tasks = ainsert id t.withEmbedding c.completed_tasks
          from rfl, hkeys]
        exact hnd
    | none =>
      rw [hb] at h
      cases hcc : alookup id c.archived_tasks with
      | some t =>
        rw [hcc] at h
        have hc' : c' = { c with
            archived_tasks := ainsert id t.withEmbedding c.archived_tasks } := by
          simpa using h.symm
        subst hc'
        have hmem : id ∈ akeys c.archived_tasks :=
          (alookup_isSome_iff_mem_akeys id _).1 (by simp [hcc])
        have hkeys : akeys (ainsert id t.withEmbedding c.archived_tasks) =
            akeys c.archived_tasks := akeys_ainsert_of_mem id _ _ hmem
        refine ⟨rfl, rfl, ?_, ?_⟩
        · rw [ProjectTaskContainer.allIds, ProjectTaskContainer.allIds]
          rw [show ({ c with archived_tasks := ainsert id t.withEmbedding c.archived_tasks } :
            ProjectTaskContainer).archived_tasks = ainsert id t.withEmbedding c.archived_tasks
            from rfl, hkeys]
        · rw [ProjectTaskContainer.allIds]
          rw [show ({ c with archived_tasks := ainsert id t.withEmbedding c.archived_tasks } :
            ProjectTaskContainer).archived_tasks = ainsert id t.withEmbedding c.archived_tasks
            from rfl, hkeys]
          exact hnd
      | none =>
        rw [hcc] at h
        cases hd : alookup id c.deleted_tasks with
        | some t =>
          rw [hd] at h
          have hc' : c' = { c with
              deleted_tasks := ainsert id t.withEmbedding c.deleted_tasks } := by
            simpa using h.symm
          subst hc'
          have hmem : id ∈ akeys c.deleted_tasks :=
            (alookup_isSome_iff_mem_akeys id _).1 (by simp [hd])
          have hkeys : akeys (ainsert id t.withEmbedding c.deleted_tasks) =
              akeys c.deleted_tasks := akeys_ainsert_of_mem id _ _ hmem
          refine ⟨rfl, rfl, ?_, ?_⟩
          · rw [ProjectTaskContainer.allIds, ProjectTaskContainer.allIds]
            rw [show ({ c with deleted_tasks := ainsert id t.withEmbedding c.deleted_tasks } :
              ProjectTaskContainer).deleted_tasks = ainsert id t.withEmbedding c.deleted_tasks
              from rfl, hkeys]
          · rw [ProjectTaskContainer.allIds]
            rw [show ({ c with deleted_tasks := ainsert id t.withEmbedding c.deleted_tasks } :
              ProjectTaskContainer).deleted_tasks = ainsert id t.withEmbedding c.deleted_tasks
              from rfl, hkeys]
            exact hnd
        | none =>
          rw [hd] at h
          exact absurd h (by simp)

theorem not_mem_of_alookup_eq_none {α : Type} (k : String) (l : List (String × α))
    (h : alookup k l = none) : k ∉ akeys l := by
  intro hmem
  have := (alookup_isSome_iff_mem_akeys k l).2 hmem
  simp [h] at this

/-- Unpacking `containersWF` at a decomposition of the directory. -/
theorem containersWF_decomp (pre post : List ProjectTaskContainer)
    (cm : ProjectTaskContainer) (h : containersWF (pre ++ cm :: post)) :
    cm.allIds.Nodup ∧
    (∀ x ∈ pre, ∀ j, j ∈ x.allIds → j ∉ cm.allIds) ∧
    (∀ x ∈ post, ∀ j, j ∈ cm.allIds → j ∉ x.allIds) ∧
    (∀ x ∈ pre, x.allIds.Nodup) ∧ (∀ x ∈ post, x.allIds.Nodup) := by
  obtain ⟨hnd, hpair⟩ := h
  rw [List.pairwise_append] at hpair
  obtain ⟨hpre, hcons, hcross⟩ := hpair
  rw [List.pairwise_cons] at hcons
  refine ⟨hnd cm (by simp), ?_, ?_, ?_, ?_⟩
  · intro x hx j hj
    exact hcross x hx cm (by simp) j hj
  · intro x hx j hj
    exact hcons.1 x hx j hj
  · intro x hx
    exact hnd x (by simp [hx])
  · intro x hx
    exact hnd x (by simp [hx])

/-- Replacing one container by another whose id set is contained in the
old one preserves directory well-formedness. -/
theorem containersWF_replace (pre post : List ProjectTaskContainer)
    (cm cm' : ProjectTaskContainer) (h : containersWF (pre ++ cm :: post))
    (hsub : ∀ j, j ∈ cm'.allIds → j ∈ cm.allIds) (hnd' : cm'.allIds.Nodup) :
    containersWF (pre ++ cm' :: post) := by
  obtain ⟨hnd, hpair⟩ := h
  rw [List.pairwise_append] at hpair
  obtain ⟨hpre, hcons, hcross⟩ := hpair
  rw [List.pairwise_cons] at hcons
  constructor
  · intro c hc
    rcases List.mem_append.1 hc with hc | hc
    · exact hnd c (by simp [hc])
    · rcases List.mem_cons.1 hc with rfl | hc
      · exact hnd'
      · exact hnd c (by simp [hc])
  · rw [List.pairwise_append, List.pairwise_cons]
    refine ⟨hpre, ⟨?_, hcons.2⟩, ?_⟩
    · intro x hx j hj
      exact hcons.1 x hx j (hsub j hj)
    · intro x hx y hy
      rcases List.mem_cons.1 hy with rfl | hy
      · intro j hj hj'
        exact hcross x hx cm (by simp) j hj (hsub j hj')
      · exact hcross x hx y (by simp [hy])

/-- C4: for a task id present in `active`, `completed` or `archived` of
some container of a well-formed store, `deleteTask` succeeds; the
original task reappears with status forced to `cancelled` and
`updated_at` stamped, in the `deleted` bucket of the same container
(same hash), as the only occurrence of the id anywhere; the record is
not erased (the id sets of the store are unchanged), and
`getTaskAnywhere` afterwards returns the task from `deleted` instead of
failing with NotFound. -/
theorem claim_C4_soft_delete (s : StorageState) (id : String) (now : DateTime)
    (hwf : containersWF s.containers)
    (hpresent : ∃ c ∈ s.containers,
      id ∈ akeys c.active_tasks ∨ id ∈ akeys c.completed_tasks ∨
        id ∈ akeys c.archived_tasks) :
    ∃ s' t,
      delete_task_from_project s id now = .ok s' ∧
      (∃ c ∈ s.containers, alookup id c.active_tasks = some t ∨
        alookup id c.completed_tasks = some t ∨ alookup id c.archived_tasks = some t) ∧
      get_task_from_any_project s' id =
        .ok { t with status := "cancelled", updated_at := now } ∧
      (∀ c ∈ s'.containers, id ∉ akeys c.active_tasks ∧ id ∉ akeys c.completed_tasks ∧
        id ∉ akeys c.archived_tasks) ∧
      (s'.containers.filter (fun c => c.hasId id)).length = 1 ∧
      (∃ cpre ∈ s.containers, ∃ cpost ∈ s'.containers,
        cpost.project_hash = cpre.project_hash ∧
        (id ∈ akeys cpre.active_tasks ∨ id ∈ akeys cpre.completed_tasks ∨
          id ∈ akeys cpre.archived_tasks) ∧
        alookup id cpost.deleted_tasks =
          some { t with status := "cancelled", updated_at := now }) ∧
      (∀ j, (∃ c ∈ s'.containers, j ∈ c.allIds) ↔ (∃ c ∈ s.containers, j ∈ c.allIds)) := by
  have hsome : (modifyFirstContainer (deleteInContainer id now) s.containers).isSome := by
    obtain ⟨c, hc, hmem⟩ := hpresent
    refine modifyFirstContainer_isSome _ _ ⟨c, hc, ?_⟩
    cases hf : deleteInContainer id now c with
    | some c' => simp
    | none =>
      obtain ⟨h1, h2, h3⟩ := (deleteInContainer_eq_none_iff id now c).1 hf
      rcases hmem with hm | hm | hm
      · exact absurd (not_mem_of_alookup_eq_none id _ h1) (by simp [hm])
      · exact absurd (not_mem_of_alookup_eq_none id _ h2) (by simp [hm])
      · exact absurd (not_mem_of_alookup_eq_none id _ h3) (by simp [hm])
  obtain ⟨cs', hmod⟩ := Option.isSome_iff_exists.1 hsome
  obtain ⟨pre, cm, cm', post, hdecomp, hdecomp', hf, hprenone⟩ :=
    modifyFirstContainer_eq_some _ _ _ hmod
  rw [hdecomp] at hwf
  obtain ⟨hcmnd, hpredisj, hpostdisj, hprend, hpostnd⟩ :=
    containersWF_decomp pre post cm hwf
  obtain ⟨t, hfound, hhash, hname, hdel, hact, hcomp, harch, hids, hnd'⟩ :=
    deleteInContainer_spec id now cm cm' hcmnd hf
  have hmemcm : id ∈ cm.allIds := by
    rcases hfound with hm | hm | hm <;>
      exact (mem_allIds_iff cm id).2 (by
        first
        | exact Or.inl ((alookup_isSome_iff_mem_akeys id _).1 (by simp [hm]))
        | exact Or.inr (Or.inl ((alookup_isSome_iff_mem_akeys id _).1 (by simp [hm])))
        | exact Or.inr (Or.inr (Or.inl
            ((alookup_isSome_iff_mem_akeys id _).1 (by simp [hm])))))
  have hprenot : ∀ x ∈ pre, id ∉ x.allIds := by
    intro x hx hmem
    exact hpredisj x hx id hmem hmemcm
  have hpostnot : ∀ x ∈ post, id ∉ x.allIds := by
    intro x hx
    exact hpostdisj x hx id hmemcm
  have hmoved : id ∈ cm'.allIds := by
    rw [mem_allIds_iff]
    exact Or.inr (Or.inr (Or.inr ((alookup_isSome_iff_mem_akeys id _).1 (by simp [hdel]))))
  refine ⟨{ s with containers := cs' }, t, ?_, ?_, ?_, ?_, ?_, ?_, ?_⟩
  · rw [delete_task_from_project, hmod]
  · exact ⟨cm, by rw [hdecomp]; simp, hfound⟩
  · rw [get_task_from_any_project]
    have hscan : getTaskInContainers id cs' =
        some { t with status := "cancelled", updated_at := now } := by
      rw [hdecomp', getTaskInContainers_append_not_mem id pre _ hprenot,
        getTaskInContainers, hact, hcomp, harch, hdel]
    rw [hscan]
  · intro c hc
    rw [hdecomp'] at hc
    rcases List.mem_append.1 hc with hc | hc
    · have := hprenot c hc
      rw [mem_allIds_iff] at this
      push_neg at this
      exact ⟨this.1, this.2.1, this.2.2.1⟩
    · rcases List.mem_cons.1 hc with rfl | hc
      · exact ⟨not_mem_of_alookup_eq_none id _ hact,
          not_mem_of_alookup_eq_none id _ hcomp,
          not_mem_of_alookup_eq_none id _ harch⟩
      · have := hpostnot c hc
        rw [mem_allIds_iff] at this
        push_neg at this
        exact ⟨this.1, this.2.1, this.2.2.1⟩
  · rw [hdecomp', List.filter_append]
    have hpre0 : pre.filter (fun c => c.hasId id) = [] := by
      rw [List.filter_eq_nil_iff]
      intro x hx
      simp [hasId_eq_false_iff x id |>.2 (hprenot x hx)]
    have hpost0 : post.filter (fun c => c.hasId id) = [] := by
      rw [List.filter_eq_nil_iff]
      intro x hx
      simp [hasId_eq_false_iff x id |>.2 (hpostnot x hx)]
    rw [hpre0, List.filter_cons, if_pos (by
      simpa using (hasId_iff_mem_allIds cm' id).2 hmoved), hpost0]
    rfl
  · refine ⟨cm, by rw [hdecomp]; simp, cm', by rw [hdecomp']; simp, hhash, ?_, hdel⟩
    rcases hfound with hm | hm | hm
    · exact Or.inl ((alookup_isSome_iff_mem_akeys id _).1 (by simp [hm]))
    · exact Or.inr (Or.inl ((alookup_isSome_iff_mem_akeys id _).1 (by simp [hm])))
    · exact Or.inr (Or.inr ((alookup_isSome_iff_mem_akeys id _).1 (by simp [hm])))
  · intro j
    constructor
    · rintro ⟨c, hc, hj⟩
      rw [hdecomp'] at hc
      rcases List.mem_append.1 hc with hc | hc
      · exact ⟨c, by rw [hdecomp]; simp [hc], hj⟩
      · rcases List.mem_cons.1 hc with rfl | hc
        · exact ⟨cm, by rw [hdecomp]; simp, (hids j).1 hj⟩
        · exact ⟨c, by rw [hdecomp]; simp [hc], hj⟩
    · rintro ⟨c, hc, hj⟩
      rw [hdecomp] at hc
      rcases List.mem_append.1 hc with hc | hc
      · exact ⟨c, by rw [hdecomp']; simp [hc], hj⟩
      · rcases List.mem_cons.1 hc with rfl | hc
        · exact ⟨cm', by rw [hdecomp']; simp, (hids j).2 hj⟩
        · exact ⟨c, by rw [hdecomp']; simp [hc], hj⟩

/-- Witness for C4 at the concrete store. -/
theorem claim_C4_soft_delete_witness :
    (containersWF c4w_state.containers ∧
      (∃ c ∈ c4w_state.containers,
        "t1" ∈ akeys c.active_tasks ∨ "t1" ∈ akeys c.completed_tasks ∨
          "t1" ∈ akeys c.archived_tasks)) ∧
    (∃ s' t,
      delete_task_from_project c4w_state "t1" dt1 = .ok s' ∧
      (∃ c ∈ c4w_state.containers, alookup "t1" c.active_tasks = some t ∨
        alookup "t1" c.completed_tasks = some t ∨
        alookup "t1" c.archived_tasks = some t) ∧
      get_task_from_any_project s' "t1" =
        .ok { t with status := "cancelled", updated_at := dt1 } ∧
      (∀ c ∈ s'.containers, "t1" ∉ akeys c.active_tasks ∧
        "t1" ∉ akeys c.completed_tasks ∧ "t1" ∉ akeys c.archived_tasks) ∧
      (s'.containers.filter (fun c => c.hasId "t1")).length = 1 ∧
      (∃ cpre ∈ c4w_state.containers, ∃ cpost ∈ s'.containers,
        cpost.project_hash = cpre.project_hash ∧
        ("t1" ∈ akeys cpre.active_tasks ∨ "t1" ∈ akeys cpre.completed_tasks ∨
          "t1" ∈ akeys cpre.archived_tasks) ∧
        alookup "t1" cpost.deleted_tasks =
          some { t with status := "cancelled", updated_at := dt1 }) ∧
      (∀ j, (∃ c ∈ s'.containers, j ∈ c.allIds) ↔
        (∃ c ∈ c4w_state.containers, j ∈ c.allIds))) :=
  ⟨⟨by decide, by decide⟩,
    claim_C4_soft_delete c4w_state "t1" dt1 (by decide) (by decide)⟩

/-! ### Lemmas about the container directory (find / save) -/

theorem find?_decomp {α : Type} (p : α → Bool) (l : List α) (a : α)
    (h : l.find? p = some a) :
    ∃ pre post, l = pre ++ a :: post ∧ ∀ x ∈ pre, p x = false := by
  induction l with
  | nil => simp at h
  | cons hd tl ih =>
    cases hp : p hd with
    | true =>
      rw [List.find?_cons_of_pos _ hp] at h
      obtain rfl : hd = a := by simpa using h
      exact ⟨[], tl, by simp, by simp⟩
    | false =>
      rw [List.find?_cons_of_neg _ (by simp [hp])] at h
      obtain ⟨pre, post, rfl, hpre⟩ := ih h
      refine ⟨hd :: pre, post, by simp, ?_⟩
      intro x hx
      rcases List.mem_cons.1 hx with rfl | hx
      · exact hp
      · exact hpre x hx

theorem save_of_prefix (pre post : List ProjectTaskContainer)
    (cm c : ProjectTaskContainer)
    (hpre : ∀ x ∈ pre, x.project_hash ≠ c.project_hash)
    (hcm : cm.project_hash = c.project_hash) :
    save_project_task_container (pre ++ cm :: post) c = pre ++ c :: post := by
  induction pre with
  | nil => simp [save_project_task_container, hcm]
  | cons x pre ih =>
    rw [List.cons_append, save_project_task_container,
      if_neg (hpre x (by simp)), ih (fun y hy => hpre y (by simp [hy]))]
    simp

theorem save_append (cs : List ProjectTaskContainer) (c : ProjectTaskContainer)
    (h : ∀ x ∈ cs, x.project_hash ≠ c.project_hash) :
    save_project_task_container cs c = cs ++ [c] := by
  induction cs with
  | nil => simp [save_project_task_container]
  | cons x cs ih =>
    rw [save_project_task_container, if_neg (h x (by simp)),
      ih (fun y hy => h y (by simp [hy]))]
    simp

/-- Appending a container whose ids are disjoint from the directory
preserves well-formedness. -/
theorem containersWF_append (cs : List ProjectTaskContainer)
    (cnew : ProjectTaskContainer) (h : containersWF cs)
    (hdisj : ∀ j, j ∈ cnew.allIds → ∀ x ∈ cs, j ∉ x.allIds)
    (hnd : cnew.allIds.Nodup) : containersWF (cs ++ [cnew]) := by
  obtain ⟨h1, h2⟩ := h
  constructor
  · intro c hc
    rcases List.mem_append.1 hc with hc | hc
    · exact h1 c hc
    · rcases List.mem_cons.1 hc with rfl | hc
      · exact hnd
      · simp at hc
  · rw [List.pairwise_append]
    refine ⟨h2, by simp, ?_⟩
    intro x hx y hy j hj hj2
    rcases List.mem_cons.1 hy with rfl | hy
    · exact hdisj j hj2 x hx hj
    · simp at hy

/-- Replacing a container by one whose id set only adds a single id
that is fresh everywhere else preserves well-formedness. -/
theorem containersWF_replace_addfresh (pre post : List ProjectTaskContainer)
    (cm c' : ProjectTaskContainer) (id : String)
    (h : containersWF (pre ++ cm :: post))
    (hprefresh : ∀ x ∈ pre, id ∉ x.allIds) (hpostfresh : ∀ x ∈ post, id ∉ x.allIds)
    (hsub : ∀ j, j ∈ c'.allIds → j ∈ cm.allIds ∨ j = id)
    (hnd' : c'.allIds.Nodup) :
    containersWF (pre ++ c' :: post) := by
  obtain ⟨hnd, hpair⟩ := h
  rw [List.pairwise_append] at hpair
  obtain ⟨hpre, hcons, hcross⟩ := hpair
  rw [List.pairwise_cons] at hcons
  constructor
  · intro c hc
    rcases List.mem_append.1 hc with hc | hc
    · exact hnd c (by simp [hc])
    · rcases List.mem_cons.1 hc with rfl | hc
      · exact hnd'
      · exact hnd c (by simp [hc])
  · rw [List.pairwise_append, List.pairwise_cons]
    refine ⟨hpre, ⟨?_, hcons.2⟩, ?_⟩
    · intro x hx j hj
      rcases hsub j hj with hj' | rfl
      · exact hcons.1 x hx j hj'
      · exact hpostfresh x hx
    · intro x hx y hy
      rcases List.mem_cons.1 hy with rfl | hy
      · intro j hj hj'
        rcases hsub j hj' with hj'' | rfl
        · exact hcross x hx cm (by simp) j hj hj''
        · exact hprefresh x hx hj
      · exact hcross x hx y (by simp [hy])

/-- Well-formedness gives the spec's bucket-exclusivity property. -/
theorem WF_bucketExclusive (s : StorageState) (h : s.WF) : bucketExclusive s := by
  obtain ⟨_, ⟨hnd, hpair⟩, _⟩ := h
  constructor
  · intro c hc id _
    exact containerBucketCount_le_one c (hnd c hc) id
  · refine hpair.imp ?_
    intro c₁ c₂ hr id hid
    exact (hasId_eq_false_iff c₂ id).2 (hr id hid)

/-- With empty legacy collections, migration is the identity on the
store (and reports nothing found). -/
theorem migrate_empty (s : StorageState) (now : DateTime)
    (h1 : s.legacy_active.tasks = []) (h2 : s.legacy_completed.tasks = [])
    (h3 : s.legacy_archived.tasks = []) :
    migrate_to_project_based s now = (s, ⟨0, 0, 0, []⟩) := by
  rw [migrate_to_project_based]
  rw [show collectLegacyTasks s = [] by
    rw [collectLegacyTasks, h1, h2, h3]; rfl]
  rfl

/-- With an empty legacy active collection, the consistency fixer is
the identity on the store and reports zero fixed. -/
theorem fix_empty (s : StorageState) (now : DateTime)
    (h1 : s.legacy_active.tasks = []) :
    fix_completed_tasks_consistency s now = (s, 0) := by
  rw [fix_completed_tasks_consistency, h1]
  show ({ s with
      legacy_active := { s.legacy_active with tasks := [] }
      legacy_completed := { s.legacy_completed with tasks := s.legacy_completed.tasks } },
    0) = (s, 0)
  rw [← h1]

/-- Specification of `bucketInsert` for an id the container does not
yet hold: the container identity is unchanged, the id set grows by at
most the task's id, and duplicate-freeness is preserved. -/
theorem bucketInsert_spec (t : Task) (c : ProjectTaskContainer)
    (hfresh : t.id ∉ c.allIds) (hnd : c.allIds.Nodup) :
    (bucketInsert t c).project_hash = c.project_hash ∧
    (bucketInsert t c).project_name = c.project_name ∧
    (∀ j, j ∈ (bucketInsert t c).allIds → j ∈ c.allIds ∨ j = t.id) ∧
    (bucketInsert t c).allIds.Nodup ∧
    (∀ j, j ∈ c.allIds → j ∈ (bucketInsert t c).allIds) := by
  rw [mem_allIds_iff] at hfresh
  push_neg at hfresh
  obtain ⟨hfa, hfb, hfc, hfd⟩ := hfresh
  obtain ⟨⟨na, nb, nc, nd⟩, _, _, _⟩ := containerNodup_parts c hnd
  rw [bucketInsert]
  by_cases h1 : t.status ∈ active_statuses
  · rw [if_pos h1]
    have hmove := nodup_four_move (akeys c.active_tasks) (akeys c.completed_tasks)
      (akeys c.archived_tasks) (akeys c.deleted_tasks)
      (akeys (ainsert t.id t c.active_tasks)) (akeys c.completed_tasks)
      (akeys c.archived_tasks) (akeys c.deleted_tasks) t.id True False False False
      (by tauto) hnd (char_inserted _ t.id t hfa) (char_untouched _ t.id hfb)
      (char_untouched _ t.id hfc) (char_untouched _ t.id hfd)
      (akeys_ainsert_nodup t.id _ _ na) nb nc nd
    refine ⟨rfl, rfl, ?_, hmove.1, ?_⟩
    · intro j hj
      rcases (hmove.2 j).1 (by simpa [ProjectTaskContainer.allIds] using hj) with rfl | hj2
      · exact Or.inr rfl
      · exact Or.inl (by simpa [ProjectTaskContainer.allIds] using hj2)
    · intro j hj
      simpa [ProjectTaskContainer.allIds] using
        (hmove.2 j).2 (Or.inr (by simpa [ProjectTaskContainer.allIds] using hj))
  · rw [if_neg h1]
    by_cases h2 : t.status ∈ completed_statuses
    · rw [if_pos h2]
      have hmove := nodup_four_move (akeys c.active_tasks) (akeys c.completed_tasks)
        (akeys c.archived_tasks) (akeys c.deleted_tasks)
        (akeys c.active_tasks) (akeys (ainsert t.id t c.completed_tasks))
        (akeys c.archived_tasks) (akeys c.deleted_tasks) t.id False True False False
        (by tauto) hnd (char_untouched _ t.id hfa) (char_inserted _ t.id t hfb)
        (char_untouched _ t.id hfc) (char_untouched _ t.id hfd)
        na (akeys_ainsert_nodup t.id _ _ nb) nc nd
      refine ⟨rfl, rfl, ?_, hmove.1, ?_⟩
      · intro j hj
        rcases (hmove.2 j).1 (by simpa [ProjectTaskContainer.allIds] using hj) with rfl | hj2
        · exact Or.inr rfl
        · exact Or.inl (by simpa [ProjectTaskContainer.allIds] using hj2)
      · intro j hj
        simpa [ProjectTaskContainer.allIds] using
          (hmove.2 j).2 (Or.inr (by simpa [ProjectTaskContainer.allIds] using hj))
    · rw [if_neg h2]
      by_cases h3 : t.status ∈ archived_statuses
      · rw [if_pos h3]
        have hmove := nodup_four_move (akeys c.active_tasks) (akeys c.completed_tasks)
          (akeys c.archived_tasks) (akeys c.deleted_tasks)
          (akeys c.active_tasks) (akeys c.completed_tasks)
          (akeys (ainsert t.id t c.archived_tasks)) (akeys c.deleted_tasks) t.id
          False False True False
          (by tauto) hnd (char_untouched _ t.id hfa) (char_untouched _ t.id hfb)
          (char_inserted _ t.id t hfc) (char_untouched _ t.id hfd)
          na nb (akeys_ainsert_nodup t.id _ _ nc) nd
        refine ⟨rfl, rfl, ?_, hmove.1, ?_⟩
        · intro j hj
          rcases (hmove.2 j).1 (by simpa [ProjectTaskContainer.allIds] using hj) with
            rfl | hj2
          · exact Or.inr rfl
          · exact Or.inl (by simpa [ProjectTaskContainer.allIds] using hj2)
        · intro j hj
          simpa [ProjectTaskContainer.allIds] using
            (hmove.2 j).2 (Or.inr (by simpa [ProjectTaskContainer.allIds] using hj))
      · rw [if_neg h3]
        exact ⟨rfl, rfl, fun j hj => Or.inl hj, hnd, fun j hj => hj⟩

@[simp] theorem new_allIds (n : String) (d : DateTime) :
    (ProjectTaskContainer.new n d).allIds = [] := rfl

/-- The empty store is well-formed. -/
theorem empty_WF (now : DateTime) : (StorageState.empty now).WF := by
  refine ⟨by simp [StorageState.empty], ⟨by simp [StorageState.empty], ?_⟩, rfl, rfl, rfl⟩
  simp [StorageState.empty]

/-- `addTaskToProject` with a globally fresh task id preserves
well-formedness. -/
theorem add_fresh_WF (s : StorageState) (task : Task) (now : DateTime)
    (hwf : s.WF) (hfresh : ∀ c ∈ s.containers, task.id ∉ c.allIds) :
    (add_task_to_project s task now).WF := by
  obtain ⟨hhash, hcwf, hl1, hl2, hl3⟩ := hwf
  set t1 := (if task.parent_project = "" then
    { task with parent_project := s.default_project } else task) with ht1
  set t2 := t1.withEmbedding with ht2
  set pname := t1.parent_project with hpname
  have hid2 : t2.id = task.id := by
    rw [ht2, ht1]
    split <;> rfl
  have hadd : add_task_to_project s task now =
      { s with containers := (save_project_task_container s.containers
        (bucketInsert t2 (load_project_task_container s.containers pname now))) } := rfl
  rw [hadd]
  cases hfind : s.containers.find?
      (fun c => c.project_hash = hash_project_name pname) with
  | some cm =>
    have hload : load_project_task_container s.containers pname now = cm := by
      rw [load_project_task_container, hfind]
    have hcmhash : cm.project_hash = hash_project_name pname := by
      have := List.find?_some hfind
      simpa using this
    obtain ⟨pre, post, hdec, hprefalse⟩ := find?_decomp _ _ _ hfind
    have hcmmem : cm ∈ s.containers := by rw [hdec]; simp
    have hfreshcm : t2.id ∉ cm.allIds := by
      rw [hid2]
      exact hfresh cm hcmmem
    obtain ⟨hbhash, hbname, hbsub, hbnd, hbsup⟩ :=
      bucketInsert_spec t2 cm hfreshcm (hcwf.1 cm hcmmem)
    have hsave : save_project_task_container s.containers
        (bucketInsert t2 cm) = pre ++ bucketInsert t2 cm :: post := by
      rw [hdec]
      refine save_of_prefix pre post cm _ ?_ (by rw [hbhash])
      intro x hx
      have := hprefalse x hx
      rw [hbhash, hcmhash]
      simpa using this
    rw [hload, hsave]
    refine ⟨?_, ?_, hl1, hl2, hl3⟩
    · rw [hdec] at hhash
      simpa [List.map_append, hbhash] using hhash
    · rw [hdec] at hcwf
      refine containersWF_replace_addfresh pre post cm _ task.id hcwf ?_ ?_ ?_ hbnd
      · intro x hx
        exact hfresh x (by rw [hdec]; simp [hx])
      · intro x hx
        exact hfresh x (by rw [hdec]; simp [hx])
      · intro j hj
        rcases hbsub j hj with hj' | hj'
        · exact Or.inl hj'
        · exact Or.inr (by rw [← hid2]; exact hj')
  | none =>
    have hload : load_project_task_container s.containers pname now =
        ProjectTaskContainer.new pname now := by
      rw [load_project_task_container, hfind]
    have hnone : ∀ x ∈ s.containers, x.project_hash ≠ hash_project_name pname := by
      intro x hx
      have := List.find?_eq_none.1 hfind x hx
      simpa using this
    have hfreshnew : t2.id ∉ (ProjectTaskContainer.new pname now).allIds := by simp
    obtain ⟨hbhash, hbname, hbsub, hbnd, hbsup⟩ :=
      bucketInsert_spec t2 (ProjectTaskContainer.new pname now) hfreshnew (by simp)
    have hsave : save_project_task_container s.containers
        (bucketInsert t2 (ProjectTaskContainer.new pname now)) =
        s.containers ++ [bucketInsert t2 (ProjectTaskContainer.new pname now)] := by
      refine save_append _ _ ?_
      intro x hx
      rw [hbhash]
      exact hnone x hx
    rw [hload, hsave]
    refine ⟨?_, ?_, hl1, hl2, hl3⟩
    · rw [List.map_append]
      rw [List.nodup_append]
      refine ⟨hhash, by simp, ?_⟩
      intro h hmem hmem2
      obtain ⟨x, hx, hxh⟩ := List.mem_map.1 hmem
      have hh : h = (bucketInsert t2 (ProjectTaskContainer.new pname now)).project_hash := by
        simpa using hmem2
      apply hnone x hx
      rw [hxh, hh, hbhash]
      rfl
    · refine containersWF_append s.containers _ hcwf ?_ hbnd
      intro j hj x hx hjx
      rcases hbsub j hj with hj' | hj'
      · simp at hj'
      · rw [hj', hid2] at hjx
        exact hfresh x hx hjx

/-- Shared argument: replacing the first container a bucket operation
succeeds on preserves store well-formedness, provided the operation
keeps the hash, shrinks (or keeps) the id set, and keeps it
duplicate-free. -/
theorem modify_ok_WF (s : StorageState)
    (f : ProjectTaskContainer → Option ProjectTaskContainer) (cs' : List ProjectTaskContainer)
    (hwf : s.WF) (hmod : modifyFirstContainer f s.containers = some cs')
    (hspec : ∀ c c', c ∈ s.containers → c.allIds.Nodup → f c = some c' →
      c'.project_hash = c.project_hash ∧ (∀ j, j ∈ c'.allIds → j ∈ c.allIds) ∧
        c'.allIds.Nodup) :
    StorageState.WF { s with containers := cs' } := by
  obtain ⟨hhash, hcwf, hl1, hl2, hl3⟩ := hwf
  obtain ⟨pre, cm, cm', post, hdec, hdec', hf, hprenone⟩ :=
    modifyFirstContainer_eq_some _ _ _ hmod
  have hcmmem : cm ∈ s.containers := by rw [hdec]; simp
  obtain ⟨hh, hsub, hnd'⟩ := hspec cm cm' hcmmem (hcwf.1 cm hcmmem) hf
  rw [hdec] at hhash hcwf
  refine ⟨?_, ?_, hl1, hl2, hl3⟩
  · show (List.map ProjectTaskContainer.project_hash cs').Nodup
    rw [hdec']
    simpa [List.map_append, hh] using hhash
  · show containersWF cs'
    rw [hdec']
    exact containersWF_replace pre post cm cm' hcwf hsub hnd'

/-- A successful `completeTask` preserves well-formedness. -/
theorem complete_ok_WF (s : StorageState) (id : String) (now : DateTime)
    (s' : StorageState) (hwf : s.WF)
    (h : complete_task_in_project s id now = .ok s') : s'.WF := by
  rw [complete_task_in_project] at h
  cases hmod : modifyFirstContainer (completeInContainer id now) s.containers with
  | none => rw [hmod] at h; exact absurd h (by simp)
  | some cs' =>
    rw [hmod] at h
    have hs' : s' = { s with containers := cs' } := by simpa using h.symm
    subst hs'
    refine modify_ok_WF s _ cs' hwf hmod ?_
    intro c c' hc hnd hf
    obtain ⟨t, _, hh, _, _, _, _, _, hids, hnd'⟩ :=
      completeInContainer_spec id now c c' hnd hf
    exact ⟨hh, fun j hj => (hids j).1 hj, hnd'⟩

/-- A successful `deleteTask` preserves well-formedness. -/
theorem delete_ok_WF (s : StorageState) (id : String) (now : DateTime)
    (s' : StorageState) (hwf : s.WF)
    (h : delete_task_from_project s id now = .ok s') : s'.WF := by
  rw [delete_task_from_project] at h
  cases hmod : modifyFirstContainer (deleteInContainer id now) s.containers with
  | none => rw [hmod] at h; exact absurd h (by simp)
  | some cs' =>
    rw [hmod] at h
    have hs' : s' = { s with containers := cs' } := by simpa using h.symm
    subst hs'
    refine modify_ok_WF s _ cs' hwf hmod ?_
    intro c c' hc hnd hf
    obtain ⟨t, _, hh, _, _, _, _, _, hids, hnd'⟩ :=
      deleteInContainer_spec id now c c' hnd hf
    exact ⟨hh, fun j hj => (hids j).1 hj, hnd'⟩

/-- A successful `updateTask` preserves well-formedness. -/
theorem update_ok_WF (s : StorageState) (id : String) (updates : TaskUpdate)
    (s' : StorageState) (hwf : s.WF)
    (h : update_task_in_project s id updates = .ok s') : s'.WF := by
  rw [update_task_in_project] at h
  cases hmod : modifyFirstContainer (updateInContainer id) s.containers with
  | none => rw [hmod] at h; exact absurd h (by simp)
  | some cs' =>
    rw [hmod] at h
    have hs' : s' = { s with containers := cs' } := by simpa using h.symm
    subst hs'
    refine modify_ok_WF s _ cs' hwf hmod ?_
    intro c c' hc hnd hf
    obtain ⟨hh, _, hids, hnd'⟩ := updateInContainer_spec id c c' hnd hf
    exact ⟨hh, fun j hj => by rw [hids] at hj; exact hj, hnd'⟩

/-- Every state reachable under the generated-id discipline is
well-formed. -/
theorem reachableFresh_WF (s : StorageState) (h : ReachableFresh s) : s.WF := by
  induction h with
  | empty now => exact empty_WF now
  | add s task now _ hfresh ih => exact add_fresh_WF s task now ih hfresh
  | complete s id now s' _ hok ih => exact complete_ok_WF s id now s' ih hok
  | delete s id now s' _ hok ih => exact delete_ok_WF s id now s' ih hok
  | update s id updates s' _ hok ih => exact update_ok_WF s id updates s' ih hok
  | migrate s now _ ih =>
    rw [migrate_empty s now ih.2.2.1 ih.2.2.2.1 ih.2.2.2.2]
    exact ih
  | fix s now _ ih =>
    rw [fix_empty s now ih.2.2.1]
    exact ih

/-- C1 as stated is false: from the empty store, two `addTaskToProject`
calls reusing one task id with statuses `todo` and `done` produce a
reachable state in which the id occupies both the `active` and the
`completed` bucket of one container — `add_task_to_project` inserts
into the bucket selected by the status without removing the id from any
other bucket. -/
theorem claim_C1_bucket_exclusivity_counterexample :
    ¬ (∀ s : StorageState, Reachable s → bucketExclusive s) := by
  intro h
  have hreach : Reachable c1_bad_state :=
    Reachable.add _ c1_taskB dt0 (Reachable.add _ c1_taskA dt0 (Reachable.empty dt0))
  exact absurd (h c1_bad_state hreach) (by decide)

/-- C1 (amended): in every state reachable from the empty store by the
six public task operations, where every `addTaskToProject` call adds a
task whose id is not already present in any container (the discipline
the library's generated `task_<uuid>` ids provide), every task id
appears in at most one of the four buckets within one container, and
in at most one container overall. -/
theorem claim_C1_bucket_exclusivity_fresh (s : StorageState)
    (h : ReachableFresh s) : bucketExclusive s :=
  WF_bucketExclusive s (reachableFresh_WF s h)

/-- Witness for the amended C1 at a concrete reachable state. -/
theorem claim_C1_bucket_exclusivity_fresh_witness :
    bucketExclusive (add_task_to_project (StorageState.empty dt0) c1_taskA dt0) :=
  claim_C1_bucket_exclusivity_fresh _
    (ReachableFresh.add _ c1_taskA dt0 (ReachableFresh.empty dt0) (by decide))

/-! ### Lemmas for the migration engine (claim C2) -/

theorem mem_ainsert {α : Type} (x : String × α) (k : String) (v : α)
    (l : List (String × α)) (h : x ∈ ainsert k v l) : x = (k, v) ∨ x ∈ l := by
  induction l with
  | nil => simpa [ainsert] using h
  | cons hd tl ih =>
    obtain ⟨k', v'⟩ := hd
    by_cases hk : k' = k
    · rw [ainsert, if_pos hk] at h
      rcases List.mem_cons.1 h with rfl | h
      · exact Or.inl rfl
      · exact Or.inr (by simp [h])
    · rw [ainsert, if_neg hk] at h
      rcases List.mem_cons.1 h with rfl | h
      · exact Or.inr (by simp)
      · rcases ih h with h | h
        · exact Or.inl h
        · exact Or.inr (by simp [h])

theorem alookup_mem_pair {α : Type} (k : String) (v : α) (l : List (String × α))
    (h : alookup k l = some v) : (k, v) ∈ l := by
  induction l with
  | nil => simp at h
  | cons hd tl ih =>
    obtain ⟨k', v'⟩ := hd
    by_cases hk : k' = k
    · subst hk
      rw [alookup_cons, if_pos rfl] at h
      obtain rfl : v' = v := by simpa using h
      simp
    · rw [alookup_cons, if_neg hk] at h
      exact List.mem_cons.2 (Or.inr (ih h))

theorem load_hash (cs : List ProjectTaskContainer) (p : String) (now : DateTime) :
    (load_project_task_container cs p now).project_hash = hash_project_name p := by
  rw [load_project_task_container]
  cases hfind : cs.find? (fun c => c.project_hash = hash_project_name p) with
  | some cm => simpa using List.find?_some hfind
  | none => rfl

theorem load_nodup (cs : List ProjectTaskContainer) (p : String) (now : DateTime)
    (h : ∀ c ∈ cs, c.allIds.Nodup) :
    (load_project_task_container cs p now).allIds.Nodup := by
  rw [load_project_task_container]
  cases hfind : cs.find? (fun c => c.project_hash = hash_project_name p) with
  | some cm => exact h cm (List.mem_of_find?_eq_some hfind)
  | none => simp

theorem save_mem (cs : List ProjectTaskContainer) (c x : ProjectTaskContainer)
    (h : x ∈ save_project_task_container cs c) : x ∈ cs ∨ x = c := by
  induction cs with
  | nil => simpa [save_project_task_container] using h
  | cons y cs ih =>
    rw [save_project_task_container] at h
    by_cases hy : y.project_hash = c.project_hash
    · rw [if_pos hy] at h
      rcases List.mem_cons.1 h with rfl | h
      · exact Or.inr rfl
      · exact Or.inl (by simp [h])
    · rw [if_neg hy] at h
      rcases List.mem_cons.1 h with rfl | h
      · exact Or.inl (by simp)
      · rcases ih h with h | h
        · exact Or.inl (by simp [h])
        · exact Or.inr h

theorem save_mem_of_ne (cs : List ProjectTaskContainer) (c x : ProjectTaskContainer)
    (hx : x ∈ cs) (hne : x.project_hash ≠ c.project_hash) :
    x ∈ save_project_task_container cs c := by
  induction cs with
  | nil => simp at hx
  | cons y cs ih =>
    rw [save_project_task_container]
    by_cases hy : y.project_hash = c.project_hash
    · rw [if_pos hy]
      rcases List.mem_cons.1 hx with rfl | hx
      · exact absurd hy hne
      · simp [hx]
    · rw [if_neg hy]
      rcases List.mem_cons.1 hx with rfl | hx
      · simp
      · simp [ih hx]

theorem self_mem_save (cs : List ProjectTaskContainer) (c : ProjectTaskContainer) :
    c ∈ save_project_task_container cs c := by
  induction cs with
  | nil => simp [save_project_task_container]
  | cons y cs ih =>
    rw [save_project_task_container]
    by_cases hy : y.project_hash = c.project_hash
    · rw [if_pos hy]; simp
    · rw [if_neg hy]; simp [ih]

theorem find?_save_self (cs : List ProjectTaskContainer) (c : ProjectTaskContainer)
    (h : String) (hc : c.project_hash = h) :
    (save_project_task_container cs c).find? (fun x => x.project_hash = h) = some c := by
  induction cs with
  | nil =>
    rw [save_project_task_container]
    simp [List.find?, hc]
  | cons y cs ih =>
    rw [save_project_task_container]
    by_cases hy : y.project_hash = c.project_hash
    · rw [if_pos hy]
      simp [List.find?, hc]
    · rw [if_neg hy]
      rw [List.find?_cons_of_neg _ (by simp [hc ▸ hy]), ih]

theorem find?_save_frame (cs : List ProjectTaskContainer) (c : ProjectTaskContainer)
    (h : String) (hne : c.project_hash ≠ h) :
    (save_project_task_container cs c).find? (fun x => x.project_hash = h) =
      cs.find? (fun x => x.project_hash = h) := by
  induction cs with
  | nil =>
    rw [save_project_task_container]
    simp [List.find?, hne]
  | cons y cs ih =>
    rw [save_project_task_container]
    by_cases hy : y.project_hash = c.project_hash
    · rw [if_pos hy]
      rw [List.find?_cons_of_neg _ (by simp [hne]),
        List.find?_cons_of_neg _ (by simp [hy ▸ hne])]
    · rw [if_neg hy]
      by_cases hyh : y.project_hash = h
      · rw [List.find?_cons_of_pos _ (by simp [hyh]),
          List.find?_cons_of_pos _ (by simp [hyh])]
      · rw [List.find?_cons_of_neg _ (by simp [hyh]),
          List.find?_cons_of_neg _ (by simp [hyh]), ih]

theorem find?_of_mem_hash_nodup (cs : List ProjectTaskContainer)
    (orig : ProjectTaskContainer)
    (hnodup : (cs.map ProjectTaskContainer.project_hash).Nodup) (hmem : orig ∈ cs) :
    cs.find? (fun x => x.project_hash = orig.project_hash) = some orig := by
  cases hfind : cs.find? (fun x => x.project_hash = orig.project_hash) with
  | none =>
    have := List.find?_eq_none.1 hfind orig hmem
    simp at this
  | some cm =>
    have hcm : cm.project_hash = orig.project_hash := by
      simpa using List.find?_some hfind
    have hcmm : cm ∈ cs := List.mem_of_find?_eq_some hfind
    have := List.inj_on_of_nodup_map hnodup hcmm hmem hcm
    rw [this]

theorem save_identity (cs : List ProjectTaskContainer) (c : ProjectTaskContainer)
    (hfind : cs.find? (fun x => x.project_hash = c.project_hash) = some c) :
    save_project_task_container cs c = cs := by
  obtain ⟨pre, post, hdec, hpre⟩ := find?_decomp _ _ _ hfind
  rw [hdec]
  refine save_of_prefix pre post c c ?_ rfl
  intro x hx
  have := hpre x hx
  simpa using this

theorem save_hashes_nodup (cs : List ProjectTaskContainer) (c : ProjectTaskContainer)
    (h : (cs.map ProjectTaskContainer.project_hash).Nodup) :
    ((save_project_task_container cs c).map ProjectTaskContainer.project_hash).Nodup := by
  cases hfind : cs.find? (fun x => x.project_hash = c.project_hash) with
  | some cm =>
    obtain ⟨pre, post, hdec, hpre⟩ := find?_decomp _ _ _ hfind
    have hcm : cm.project_hash = c.project_hash := by
      simpa using List.find?_some hfind
    rw [hdec, save_of_prefix pre post cm c (fun x hx => by simpa using hpre x hx) hcm]
    rw [hdec] at h
    simpa [List.map_append, hcm] using h
  | none =>
    have hnone : ∀ x ∈ cs, x.project_hash ≠ c.project_hash := by
      intro x hx
      have := List.find?_eq_none.1 hfind x hx
      simpa using this
    rw [save_append cs c hnone, List.map_append, List.nodup_append]
    refine ⟨h, by simp, ?_⟩
    intro a hmem hmem2
    obtain ⟨x, hx, hxh⟩ := List.mem_map.1 hmem
    have : a = c.project_hash := by simpa using hmem2
    exact hnone x hx (by rw [hxh, this])

theorem save_all_nodup (cs : List ProjectTaskContainer) (c : ProjectTaskContainer)
    (h : ∀ x ∈ cs, x.allIds.Nodup) (hc : c.allIds.Nodup) :
    ∀ x ∈ save_project_task_container cs c, x.allIds.Nodup := by
  intro x hx
  rcases save_mem cs c x hx with hx | rfl
  · exact h x hx
  · exact hc

/-- With a valid status string, `bucketInsert` does place the id in
some bucket. -/
theorem bucketInsert_mem_valid (t : Task) (c : ProjectTaskContainer)
    (h : t.status ∈ valid_statuses) : t.id ∈ (bucketInsert t c).allIds := by
  rw [valid_statuses] at h
  rw [bucketInsert]
  rcases List.mem_append.1 h with h' | h'
  · rcases List.mem_append.1 h' with h1 | h2
    · rw [if_pos h1, mem_allIds_iff]
      exact Or.inl ((mem_akeys_ainsert _ _ _ _).2 (Or.inl rfl))
    · by_cases h1 : t.status ∈ active_statuses
      · rw [if_pos h1, mem_allIds_iff]
        exact Or.inl ((mem_akeys_ainsert _ _ _ _).2 (Or.inl rfl))
      · rw [if_neg h1, if_pos h2, mem_allIds_iff]
        exact Or.inr (Or.inl ((mem_akeys_ainsert _ _ _ _).2 (Or.inl rfl)))
  · by_cases h1 : t.status ∈ active_statuses
    · rw [if_pos h1, mem_allIds_iff]
      exact Or.inl ((mem_akeys_ainsert _ _ _ _).2 (Or.inl rfl))
    · rw [if_neg h1]
      by_cases h2 : t.status ∈ completed_statuses
      · rw [if_pos h2, mem_allIds_iff]
        exact Or.inr (Or.inl ((mem_akeys_ainsert _ _ _ _).2 (Or.inl rfl)))
      · rw [if_neg h2, if_pos h', mem_allIds_iff]
        exact Or.inr (Or.inr (Or.inl ((mem_akeys_ainsert _ _ _ _).2 (Or.inl rfl))))

/-- `bucketInsert` does not disturb lookups of other ids. -/
theorem bucketInsert_lookup_ne (t : Task) (c : ProjectTaskContainer) (j : String)
    (hne : j ≠ t.id) :
    alookup j (bucketInsert t c).active_tasks = alookup j c.active_tasks ∧
    alookup j (bucketInsert t c).completed_tasks = alookup j c.completed_tasks ∧
    alookup j (bucketInsert t c).archived_tasks = alookup j c.archived_tasks ∧
    alookup j (bucketInsert t c).deleted_tasks = alookup j c.deleted_tasks := by
  rw [bucketInsert]
  by_cases h1 : t.status ∈ active_statuses
  · rw [if_pos h1]
    exact ⟨alookup_ainsert_ne j t.id t _ hne, rfl, rfl, rfl⟩
  · rw [if_neg h1]
    by_cases h2 : t.status ∈ completed_statuses
    · rw [if_pos h2]
      exact ⟨rfl, alookup_ainsert_ne j t.id t _ hne, rfl, rfl⟩
    · rw [if_neg h2]
      by_cases h3 : t.status ∈ archived_statuses
      · rw [if_pos h3]
        exact ⟨rfl, rfl, alookup_ainsert_ne j t.id t _ hne, rfl⟩
      · rw [if_neg h3]
        exact ⟨rfl, rfl, rfl, rfl⟩

/-- The present-check of the migration task loop, as a Boolean. -/
theorem present_check_true_iff (t : Task) (c : ProjectTaskContainer) :
    (amem t.id c.active_tasks || amem t.id c.completed_tasks ||
      amem t.id c.archived_tasks || amem t.id c.deleted_tasks) = true ↔
    t.id ∈ c.allIds := by
  simp only [Bool.or_eq_true, amem_iff_mem_akeys, mem_allIds_iff, or_assoc]

/-- Full specification of the per-group migration loop: identity
fields preserved, id set grows only by ids of the group's tasks, ids
already present keep their bucket entry values, every valid-status
task of the group ends up present, and duplicate-freeness is
preserved. -/
theorem migrateGroupAux_spec (ts : List Task) (c : ProjectTaskContainer) (k : Nat)
    (hnd : c.allIds.Nodup) :
    (migrateGroupAux c k ts).1.project_hash = c.project_hash ∧
    (migrateGroupAux c k ts).1.allIds.Nodup ∧
    (∀ j, j ∈ c.allIds → j ∈ (migrateGroupAux c k ts).1.allIds) ∧
    (∀ t ∈ ts, t.status ∈ valid_statuses → t.id ∈ (migrateGroupAux c k ts).1.allIds) ∧
    (∀ j, j ∈ c.allIds →
      alookup j (migrateGroupAux c k ts).1.active_tasks = alookup j c.active_tasks ∧
      alookup j (migrateGroupAux c k ts).1.completed_tasks =
        alookup j c.completed_tasks ∧
      alookup j (migrateGroupAux c k ts).1.archived_tasks = alookup j c.archived_tasks ∧
      alookup j (migrateGroupAux c k ts).1.deleted_tasks = alookup j c.deleted_tasks) := by
  induction ts generalizing c k with
  | nil =>
    rw [migrateGroupAux]
    exact ⟨rfl, hnd, fun j hj => hj, by simp, fun j _ => ⟨rfl, rfl, rfl, rfl⟩⟩
  | cons t rest ih =>
    rw [migrateGroupAux]
    cases hcond : (amem t.id c.active_tasks || amem t.id c.completed_tasks ||
        amem t.id c.archived_tasks || amem t.id c.deleted_tasks) with
    | true =>
      rw [if_pos rfl]
      have hpres : t.id ∈ c.allIds := (present_check_true_iff t c).1 hcond
      obtain ⟨s1, s2, s3, s4, s5⟩ := ih c k hnd
      refine ⟨s1, s2, s3, ?_, s5⟩
      intro x hx hv
      rcases List.mem_cons.1 hx with rfl | hx
      · exact s3 x.id hpres
      · exact s4 x hx hv
    | false =>
      rw [if_neg (by simp)]
      have habs : t.id ∉ c.allIds := by
        intro hmem
        rw [(present_check_true_iff t c).2 hmem] at hcond
        simp at hcond
      obtain ⟨bh, bn, bsub, bnd, bsup⟩ := bucketInsert_spec t c habs hnd
      obtain ⟨s1, s2, s3, s4, s5⟩ := ih (bucketInsert t c) (k + 1) bnd
      refine ⟨by rw [s1, bh], s2, ?_, ?_, ?_⟩
      · intro j hj
        exact s3 j (bsup j hj)
      · intro x hx hv
        rcases List.mem_cons.1 hx with rfl | hx
        · exact s3 x.id (bucketInsert_mem_valid x c hv)
        · exact s4 x hx hv
      · intro j hj
        have hne : j ≠ t.id := fun heq => habs (heq ▸ hj)
        obtain ⟨l1, l2, l3, l4⟩ := bucketInsert_lookup_ne t c j hne
        obtain ⟨m1, m2, m3, m4⟩ := s5 j (bsup j hj)
        exact ⟨by rw [m1, l1], by rw [m2, l2], by rw [m3, l3], by rw [m4, l4]⟩

/-- When every task of the group is already present in the container,
the migration task loop is a no-op and counts nothing. -/
theorem migrateGroupAux_noop (ts : List Task) (c : ProjectTaskContainer) (k : Nat)
    (h : ∀ t ∈ ts, t.id ∈ c.allIds) : migrateGroupAux c k ts = (c, k) := by
  induction ts with
  | nil => rfl
  | cons t rest ih =>
    rw [migrateGroupAux, if_pos ((present_check_true_iff t c).2 (h t (by simp)))]
    exact ih (fun x hx => h x (by simp [hx]))

theorem migrateGroups_nil (now : DateTime) (cs : List ProjectTaskContainer)
    (m p : Nat) : migrateGroups now [] cs m p = (cs, m, p) := rfl

theorem migrateGroups_cons (now : DateTime) (pname : String) (ts : List Task)
    (rest : List (String × List Task)) (cs : List ProjectTaskContainer) (m p : Nat) :
    migrateGroups now ((pname, ts) :: rest) cs m p =
      migrateGroups now rest
        (save_project_task_container cs
          (migrateGroupAux (load_project_task_container cs pname now) 0 ts).1)
        (m + (migrateGroupAux (load_project_task_container cs pname now) 0 ts).2)
        (p + 1) := rfl

/-- Full specification of the per-project migration fold, for a group
list with duplicate-free keys over a directory with duplicate-free
hashes: hashes and per-container duplicate-freeness are preserved,
containers at hashes no group touches are untouched, every group's
container is afterwards on file and holds every valid-status task of
the group, and entries present before keep their values. -/
theorem migrateGroups_spec (now : DateTime) (groups : List (String × List Task))
    (cs : List ProjectTaskContainer) (m p : Nat)
    (hkeys : (akeys groups).Nodup)
    (hhash : (cs.map ProjectTaskContainer.project_hash).Nodup)
    (hnd : ∀ c ∈ cs, c.allIds.Nodup) :
    ((migrateGroups now groups cs m p).1.map ProjectTaskContainer.project_hash).Nodup ∧
    (∀ c ∈ (migrateGroups now groups cs m p).1, c.allIds.Nodup) ∧
    (∀ h', (∀ g ∈ groups, hash_project_name g.1 ≠ h') →
      (migrateGroups now groups cs m p).1.find? (fun c => c.project_hash = h') =
        cs.find? (fun c => c.project_hash = h')) ∧
    (∀ g ∈ groups, ∃ cg,
      (migrateGroups now groups cs m p).1.find?
        (fun c => c.project_hash = hash_project_name g.1) = some cg ∧
      ∀ t ∈ g.2, t.status ∈ valid_statuses → t.id ∈ cg.allIds) ∧
    (∀ c' ∈ (migrateGroups now groups cs m p).1, ∀ orig ∈ cs,
      orig.project_hash = c'.project_hash → ∀ j, j ∈ orig.allIds →
        alookup j c'.active_tasks = alookup j orig.active_tasks ∧
        alookup j c'.completed_tasks = alookup j orig.completed_tasks ∧
        alookup j c'.archived_tasks = alookup j orig.archived_tasks ∧
        alookup j c'.deleted_tasks = alookup j orig.deleted_tasks) := by
  induction groups generalizing cs m p with
  | nil =>
    rw [migrateGroups_nil]
    refine ⟨hhash, hnd, fun h' _ => rfl, by simp, ?_⟩
    intro c' hc' orig horig heq j hj
    obtain rfl : orig = c' := List.inj_on_of_nodup_map hhash horig hc' heq
    exact ⟨rfl, rfl, rfl, rfl⟩
  | cons g rest ih =>
    obtain ⟨pname, ts⟩ := g
    rw [migrateGroups_cons]
    have hcm_nd : (load_project_task_container cs pname now).allIds.Nodup :=
      load_nodup cs pname now hnd
    obtain ⟨g1, g2, g3, g4, g5⟩ :=
      migrateGroupAux_spec ts (load_project_task_container cs pname now) 0 hcm_nd
    have hc1hash : (migrateGroupAux (load_project_task_container cs pname now) 0 ts).1.project_hash =
        hash_project_name pname := by
      rw [g1, load_hash]
    have hkeys' : (akeys rest).Nodup := by
      rw [akeys_cons] at hkeys
      exact hkeys.of_cons
    have hpnotin : pname ∉ akeys rest := by
      rw [akeys_cons, List.nodup_cons] at hkeys
      exact hkeys.1
    have hashes1 := save_hashes_nodup cs
      (migrateGroupAux (load_project_task_container cs pname now) 0 ts).1 hhash
    have nodups1 := save_all_nodup cs
      (migrateGroupAux (load_project_task_container cs pname now) 0 ts).1 hnd g2
    obtain ⟨i1, i2, i3, i4, i5⟩ := ih _ (m +
      (migrateGroupAux (load_project_task_container cs pname now) 0 ts).2) (p + 1)
      hkeys' hashes1 nodups1
    refine ⟨i1, i2, ?_, ?_, ?_⟩
    · intro h' hall
      have hrest : ∀ g ∈ rest, hash_project_name g.1 ≠ h' :=
        fun g hg => hall g (by simp [hg])
      rw [i3 h' hrest, find?_save_frame]
      rw [hc1hash]
      exact hall (pname, ts) (by simp)
    · intro g hg
      rcases List.mem_cons.1 hg with rfl | hg
      · refine ⟨(migrateGroupAux (load_project_task_container cs pname now) 0 ts).1,
          ?_, g4⟩
        have hrest : ∀ g' ∈ rest, hash_project_name g'.1 ≠ hash_project_name pname := by
          intro g' hg' heq
          have hgp : g'.1 = pname := hash_project_name_injective _ _ heq
          apply hpnotin
          rw [← hgp]
          simpa [akeys] using List.mem_map_of_mem Prod.fst hg'
        rw [i3 _ hrest]
        exact find?_save_self cs _ _ hc1hash
      · exact i4 g hg
    · intro c' hc' orig horig heq j hj
      by_cases horigh : orig.project_hash = hash_project_name pname
      · have hfindorig : cs.find? (fun c => c.project_hash = hash_project_name pname) =
            some orig := by
          rw [← horigh]
          exact find?_of_mem_hash_nodup cs orig hhash horig
        have hcm : load_project_task_container cs pname now = orig := by
          rw [load_project_task_container, hfindorig]
        rw [hcm] at g1 g3 g5 i5 hc'
        obtain ⟨l1, l2, l3, l4⟩ := g5 j hj
        have hmemj : j ∈ (migrateGroupAux orig 0 ts).1.allIds := g3 j hj
        have hc1eq : (migrateGroupAux orig 0 ts).1.project_hash = c'.project_hash := by
          rw [g1]
          exact heq
        obtain ⟨m1, m2, m3, m4⟩ := i5 c' hc' (migrateGroupAux orig 0 ts).1
          (self_mem_save _ _) hc1eq j hmemj
        exact ⟨by rw [m1, l1], by rw [m2, l2], by rw [m3, l3], by rw [m4, l4]⟩
      · have horig1 : orig ∈ save_project_task_container cs
            (migrateGroupAux (load_project_task_container cs pname now) 0 ts).1 := by
          refine save_mem_of_ne cs _ orig horig ?_
          rw [hc1hash]
          exact horigh
        exact i5 c' hc' orig horig1 heq j hj

/-- When every group's container is on file and already holds every
task of the group, the migration fold rewrites each container
unchanged: the directory is untouched and nothing is counted as
migrated. -/
theorem migrateGroups_noop (now : DateTime) (groups : List (String × List Task))
    (cs : List ProjectTaskContainer) (m p : Nat)
    (hpresent : ∀ g ∈ groups, ∃ cg,
      cs.find? (fun c => c.project_hash = hash_project_name g.1) = some cg ∧
        ∀ t ∈ g.2, t.id ∈ cg.allIds) :
    migrateGroups now groups cs m p = (cs, m, p + groups.length) := by
  induction groups generalizing m p with
  | nil =>
    rw [migrateGroups_nil]
    simp
  | cons g rest ih =>
    obtain ⟨pname, ts⟩ := g
    obtain ⟨cg, hfind, hmem⟩ := hpresent (pname, ts) (by simp)
    rw [migrateGroups_cons]
    have hload : load_project_task_container cs pname now = cg := by
      rw [load_project_task_container, hfind]
    rw [hload, migrateGroupAux_noop ts cg 0 hmem]
    have hsave : save_project_task_container cs cg = cs := by
      refine save_identity cs cg ?_
      have : cg.project_hash = hash_project_name pname := by
        simpa using List.find?_some hfind
      rw [this]
      exact hfind
    rw [hsave, ih _ _ (fun g' hg' => hpresent g' (by simp [hg']))]
    simp [List.length_cons]
    omega

theorem groupByProjectAux_nil (d : String) (gs : List (String × List Task)) :
    groupByProjectAux d gs [] = gs := rfl

theorem groupByProjectAux_cons (d : String) (gs : List (String × List Task))
    (x : Task) (rest : List Task) :
    groupByProjectAux d gs (x :: rest) =
      groupByProjectAux d
        (match alookup (if x.parent_project = "" then d else x.parent_project) gs with
          | some ts =>
            ainsert (if x.parent_project = "" then d else x.parent_project)
              (ts ++ [x]) gs
          | none =>
            ainsert (if x.parent_project = "" then d else x.parent_project) [x] gs)
        rest := rfl

/-- Every task of a group produced by the grouping loop comes from the
input task list (or from the accumulator). -/
theorem groupByProjectAux_sources (d : String) (tasks : List Task)
    (groups0 : List (String × List Task)) (g : String × List Task) (t : Task)
    (hg : g ∈ groupByProjectAux d groups0 tasks) (ht : t ∈ g.2) :
    t ∈ tasks ∨ ∃ g0 ∈ groups0, t ∈ g0.2 := by
  induction tasks generalizing groups0 with
  | nil =>
    rw [groupByProjectAux_nil] at hg
    exact Or.inr ⟨g, hg, ht⟩
  | cons x rest ih =>
    rw [groupByProjectAux_cons] at hg
    cases hcase : alookup (if x.parent_project = "" then d else x.parent_project)
        groups0 with
    | none =>
      rw [hcase] at hg
      rcases ih _ hg with h | ⟨g0, hg0, htg0⟩
      · exact Or.inl (by simp [h])
      · rcases mem_ainsert g0 _ [x] groups0 hg0 with heq | hmem
        · subst heq
          have : t = x := by simpa using htg0
          exact Or.inl (by simp [this])
        · exact Or.inr ⟨g0, hmem, htg0⟩
    | some old =>
      rw [hcase] at hg
      rcases ih _ hg with h | ⟨g0, hg0, htg0⟩
      · exact Or.inl (by simp [h])
      · rcases mem_ainsert g0 _ (old ++ [x]) groups0 hg0 with heq | hmem
        · subst heq
          simp only at htg0
          rcases List.mem_append.1 htg0 with hmem2 | hmem2
          · exact Or.inr ⟨(_, old), alookup_mem_pair _ old groups0 hcase, hmem2⟩
          · exact Or.inl (by simp [List.mem_singleton.1 hmem2])
        · exact Or.inr ⟨g0, hmem, htg0⟩

/-- The grouping loop preserves duplicate-freeness of the group keys. -/
theorem groupByProjectAux_keys_nodup (d : String) (tasks : List Task)
    (groups0 : List (String × List Task)) (h : (akeys groups0).Nodup) :
    (akeys (groupByProjectAux d groups0 tasks)).Nodup := by
  induction tasks generalizing groups0 with
  | nil => exact h
  | cons x rest ih =>
    rw [groupByProjectAux]
    cases halook : alookup (if x.parent_project = "" then d else x.parent_project)
        groups0 with
    | some old => exact ih _ (akeys_ainsert_nodup _ _ _ h)
    | none => exact ih _ (akeys_ainsert_nodup _ _ _ h)

/-! ### Claim C2: migration idempotence -/

/-- C2: over any starting store of the data model (legacy tasks carry
valid status strings; the container directory has one file per hash
and duplicate-free containers), running `runMigration` twice yields a
second-run report with `tasks_migrated = 0` and an unchanged
directory; after both runs no task id appears in more than one bucket
of any container; and the first run inserts only tasks not already
present in the target container's four buckets — entries present
before keep their values. -/
theorem claim_C2_migration_idempotence (s : StorageState) (now1 now2 : DateTime)
    (hvalid : ∀ t ∈ collectLegacyTasks s, t.status ∈ valid_statuses)
    (hhash : (s.containers.map ProjectTaskContainer.project_hash).Nodup)
    (hnd : ∀ c ∈ s.containers, c.allIds.Nodup) :
    (migrate_to_project_based (migrate_to_project_based s now1).1 now2).2.tasks_migrated
      = 0 ∧
    (migrate_to_project_based (migrate_to_project_based s now1).1 now2).1.containers =
      (migrate_to_project_based s now1).1.containers ∧
    (∀ c ∈ (migrate_to_project_based
        (migrate_to_project_based s now1).1 now2).1.containers,
      ∀ id ∈ c.allIds, containerBucketCount c id ≤ 1) ∧
    (∀ c' ∈ (migrate_to_project_based s now1).1.containers, ∀ orig ∈ s.containers,
      orig.project_hash = c'.project_hash → ∀ j, j ∈ orig.allIds →
        alookup j c'.active_tasks = alookup j orig.active_tasks ∧
        alookup j c'.completed_tasks = alookup j orig.completed_tasks ∧
        alookup j c'.archived_tasks = alookup j orig.archived_tasks ∧
        alookup j c'.deleted_tasks = alookup j orig.deleted_tasks) := by
  have hkeys := groupByProjectAux_keys_nodup s.default_project (collectLegacyTasks s)
    [] (by simp)
  obtain ⟨m1, m2, m3, m4, m5⟩ := migrateGroups_spec now1
    (groupByProjectAux s.default_project [] (collectLegacyTasks s))
    s.containers 0 0 hkeys hhash hnd
  have hrun1 : (migrate_to_project_based s now1).1.containers =
      (migrateGroups now1 (groupByProjectAux s.default_project []
        (collectLegacyTasks s)) s.containers 0 0).1 := rfl
  have hpresent : ∀ g ∈ groupByProjectAux s.default_project [] (collectLegacyTasks s),
      ∃ cg, (migrate_to_project_based s now1).1.containers.find?
          (fun c => c.project_hash = hash_project_name g.1) = some cg ∧
        ∀ t ∈ g.2, t.id ∈ cg.allIds := by
    intro g hg
    obtain ⟨cg, hfind, hmem⟩ := m4 g hg
    refine ⟨cg, by rw [hrun1]; exact hfind, ?_⟩
    intro t ht
    have hsrc : t ∈ collectLegacyTasks s := by
      rcases groupByProjectAux_sources s.default_project (collectLegacyTasks s)
        [] g t hg ht with h | ⟨g0, hg0, _⟩
      · exact h
      · simp at hg0
    exact hmem t ht (hvalid t hsrc)
  have hnoop := migrateGroups_noop now2
    (groupByProjectAux s.default_project [] (collectLegacyTasks s))
    (migrate_to_project_based s now1).1.containers 0 0 hpresent
  have h2migrated : (migrate_to_project_based
      (migrate_to_project_based s now1).1 now2).2.tasks_migrated =
      (migrateGroups now2 (groupByProjectAux s.default_project []
        (collectLegacyTasks s)) (migrate_to_project_based s now1).1.containers 0 0).2.1 :=
    rfl
  have h2containers : (migrate_to_project_based
      (migrate_to_project_based s now1).1 now2).1.containers =
      (migrateGroups now2 (groupByProjectAux s.default_project []
        (collectLegacyTasks s)) (migrate_to_project_based s now1).1.containers 0 0).1 :=
    rfl
  refine ⟨?_, ?_, ?_, ?_⟩
  · rw [h2migrated, hnoop]
  · rw [h2containers, hnoop]
  · intro c hc id hid
    rw [h2containers, hnoop] at hc
    refine containerBucketCount_le_one c ?_ id
    rw [hrun1] at hc
    exact m2 c hc
  · intro c' hc' orig horig heq j hj
    rw [hrun1] at hc'
    exact m5 c' hc' orig horig heq j hj

/-- Witness for C2 at the concrete store. -/
theorem claim_C2_migration_idempotence_witness :
    ((∀ t ∈ collectLegacyTasks c2w_state, t.status ∈ valid_statuses) ∧
      (c2w_state.containers.map ProjectTaskContainer.project_hash).Nodup ∧
      (∀ c ∈ c2w_state.containers, c.allIds.Nodup)) ∧
    (migrate_to_project_based
      (migrate_to_project_based c2w_state dt0).1 dt1).2.tasks_migrated = 0 :=
  ⟨⟨by decide, by decide, by decide⟩,
    (claim_C2_migration_idempotence c2w_state dt0 dt1 (by decide) (by decide)
      (by decide)).1⟩

end Todozi
